import Mathlib

/-!
Verification of the fetch-retry layer and the multi-signal extraction engine
of this repository against its specification.

The development shallowly embeds the two extractor modules
(`src/utilities/amazon_price_tracker.py` and `news_scraper.py`).  External
collaborators are modelled at their interface:

* the HTML parser (BeautifulSoup) is modelled by structures (`PSoup`,
  `NSoup`) holding exactly the query results the extractor code reads
  (selected elements' text, meta tag contents, decoded script blocks);
* `json.loads` is modelled by an already-decoded `Json` value per script
  block (`none` models a decode failure, which the code silently skips);
* the HTTP transport is modelled by a scripted list of per-attempt events
  (`TEvent`), one consumed per request issued;
* Python floats produced by `float(...)` on decimal literals are modelled
  exactly by `PyFloat` (value `m / 10 ^ e`); the inputs exercised here are
  short decimal strings for which the binary double comparison made by the
  program agrees with the exact decimal value.  Exponent / inf / nan /
  underscore forms of `float` input are not reached by any claim;
* `time.sleep` and the `Retry-After` inspection only delay execution and
  are not modelled; the persistence sink of `track` (a file append) is an
  I/O effect outside the extraction result and is not modelled.

All definitions are executable; machine integers do not occur (Python ints
are unbounded).
-/

set_option maxRecDepth 20000

namespace PyUtil

/-- Characters treated as whitespace by Python's `str.strip()` and by the
regex class `\s` on `str` inputs, restricted to the characters occurring in
this code base (ASCII whitespace and the no-break space U+00A0 that the
sources explicitly normalize).  Other Unicode whitespace is not exercised
by any claim. -/
def pyWs (c : Char) : Bool :=
  c == ' ' || c == '\t' || c == '\n' || c == '\r' || c == '\x0b' || c == '\x0c' || c == '\xa0'

/-- One pass of `re.sub(r"\s+", " ", s)`: every maximal run of whitespace
becomes a single space.  The boolean state records whether the previous
input character belonged to a run already emitted. -/
def collapseWs : Bool → List Char → List Char
  | _, [] => []
  | prevWs, c :: cs =>
      if pyWs c then
        if prevWs then collapseWs true cs
        else ' ' :: collapseWs true cs
      else c :: collapseWs false cs

/-- Python `str.strip()` on a character list: drop whitespace from both
ends. -/
def pyStripChars (l : List Char) : List Char :=
  ((l.dropWhile pyWs).reverse.dropWhile pyWs).reverse

/-- Python `str.strip()` on a string. -/
def pyStrip (s : String) : String :=
  String.mk (pyStripChars s.data)

/-- Composition used by `_clean_text` in both modules:
`re.sub(r"\s+", " ", s).strip()`. -/
def cleanChars (l : List Char) : List Char :=
  pyStripChars (collapseWs false l)

/-- `_clean_text` of `news_scraper.py` (and, after the no-break-space
replacement that is subsumed by `pyWs`, of `amazon_price_tracker.py`):
falsy input gives `None`, otherwise whitespace runs collapse to single
spaces, ends are stripped, and an empty result is coerced to `None`. -/
def cleanText : Option String → Option String
  | none => none
  | some t =>
      if t = "" then none
      else
        match cleanChars t.data with
        | [] => none
        | r => some (String.mk r)

/-- The no-break space constant `_NBSP` of `amazon_price_tracker.py`. -/
def NBSP : Char := '\xa0'

/-- Python `s.replace(_NBSP, " ")`. -/
def replNbspChars (l : List Char) : List Char :=
  l.map (fun c => if c == NBSP then ' ' else c)

/-- ASCII decimal digit test (regex class `[0-9]`). -/
def isDigitC (c : Char) : Bool :=
  48 ≤ c.toNat && c.toNat ≤ 57

/-- Python `int` on a non-empty string of decimal digits. -/
def digitsVal (l : List Char) : Nat :=
  l.foldl (fun a c => a * 10 + (c.toNat - 48)) 0

/-- Exact model of a Python float produced from a decimal literal: the
value `m / 10 ^ e`. -/
structure PyFloat where
  m : Int
  e : Nat
deriving DecidableEq, Repr

/-- Rational value denoted by a `PyFloat`. -/
def PyFloat.toRat (v : PyFloat) : ℚ :=
  (v.m : ℚ) / (10 : ℚ) ^ v.e

/-- Parse an unsigned decimal literal: `digits`, `digits.`, `.digits` or
`digits.digits`. -/
def parseUnsignedDec (l : List Char) : Option PyFloat :=
  let intPart := l.takeWhile (fun c => !(c == '.'))
  let rest := l.dropWhile (fun c => !(c == '.'))
  match rest with
  | [] =>
      if !intPart.isEmpty && intPart.all isDigitC then
        some ⟨(digitsVal intPart : Int), 0⟩
      else none
  | _ :: frac =>
      if frac.any (fun c => c == '.') then none
      else if intPart.isEmpty && frac.isEmpty then none
      else if intPart.all isDigitC && frac.all isDigitC then
        some ⟨((digitsVal intPart * 10 ^ frac.length + digitsVal frac : Nat) : Int), frac.length⟩
      else none

/-- Python `float(s)` on optionally signed decimal literals with optional
surrounding whitespace.  Returns `none` exactly where `float` raises
`ValueError` on such inputs. -/
def pyFloatChars (l : List Char) : Option PyFloat :=
  match pyStripChars l with
  | [] => none
  | c :: rest =>
      if c = '-' then (parseUnsignedDec rest).map (fun v => ⟨-v.m, v.e⟩)
      else if c = '+' then parseUnsignedDec rest
      else parseUnsignedDec (c :: rest)

/-- The `_CURRENCY_SYMBOLS` table of `amazon_price_tracker.py`, in source
(dict insertion) order. -/
def _CURRENCY_SYMBOLS : List (String × String) :=
  [("$", "USD"), ("£", "GBP"), ("€", "EUR"), ("₹", "INR"), ("¥", "JPY"),
   ("C$", "CAD"), ("CA$", "CAD"), ("A$", "AUD"), ("AU$", "AUD")]

/-- `sorted(_CURRENCY_SYMBOLS.keys(), key=len, reverse=True)`: Python's
stable sort by descending length applied to the keys above. -/
def symbolOrder : List String :=
  ["CA$", "AU$", "C$", "A$", "$", "£", "€", "₹", "¥"]

/-- First match (Python `dict.get`) in an association list. -/
def lookupPairs : List (String × String) → String → Option String
  | [], _ => none
  | (k, v) :: rest, key => if k = key then some v else lookupPairs rest key

/-- The symbol-stripping loop of `_parse_price_and_symbol`: for each symbol
in order, first a prefix test then a suffix test; the matched symbol is
removed and the remainder stripped. -/
def stripSymbolL : List (List Char) → List Char → List Char × Option (List Char)
  | [], s => (s, none)
  | sym :: rest, s =>
      if sym.isPrefixOf s then (pyStripChars (s.drop sym.length), some sym)
      else if sym.isSuffixOf s then (pyStripChars (s.take (s.length - sym.length)), some sym)
      else stripSymbolL rest s

/-- Whitespace normalization and symbol stripping prefix of
`_parse_price_and_symbol` (source lines: `s = text.replace(_NBSP, " ").strip()`
followed by the symbol loop). -/
def pricePre (text : String) : List Char × Option String :=
  let s0 := pyStripChars (replNbspChars text.data)
  let r := stripSymbolL (symbolOrder.map String.data) s0
  (r.1, r.2.map String.mk)

/-- Keep only digits and separators:
`candidate = re.sub(r"[^0-9.,]", "", s)`. -/
def isMoneyChar (c : Char) : Bool :=
  isDigitC c || c == '.' || c == ','

/-- The `candidate` string inside `_parse_price_and_symbol`. -/
def priceCandidate (text : String) : List Char :=
  (pricePre text).1.filter isMoneyChar

/-- The text after the last comma: `candidate.rsplit(",", 1)[-1]` (equal to
the whole string when no comma occurs). -/
def lastGroup (l : List Char) : List Char :=
  (l.reverse.takeWhile (fun c => !(c == ','))).reverse

/-- Separator disambiguation of `_parse_price_and_symbol`: both separators
present means commas are grouping; only commas with a 1-2 digit final group
means a decimal comma (`candidate.replace(".", "").replace(",", ".")`);
otherwise commas are grouping. -/
def normalizeCandidate (candidate : List Char) : List Char :=
  if candidate.any (fun c => c == ',') && candidate.any (fun c => c == '.') then
    candidate.filter (fun c => !(c == ','))
  else if candidate.any (fun c => c == ',') && !candidate.any (fun c => c == '.') then
    if (lastGroup candidate).length = 1 ∨ (lastGroup candidate).length = 2 then
      (candidate.filter (fun c => !(c == '.'))).map (fun c => if c == ',' then '.' else c)
    else candidate.filter (fun c => !(c == ','))
  else candidate

/-- `_parse_price_and_symbol` of `amazon_price_tracker.py`: returns the
parsed value (absent when the residue is empty or `float` fails) and the
stripped currency symbol. -/
def _parse_price_and_symbol (text : String) : Option PyFloat × Option String :=
  let symbol := (pricePre text).2
  let candidate := priceCandidate text
  if candidate.isEmpty then (none, symbol)
  else (pyFloatChars (normalizeCandidate candidate), symbol)

/-- JSON values as produced by `json.loads` on an embedded script block.
Number literals in JSON are decimal, so `PyFloat` represents them exactly
(the int/float distinction of `json.loads` is immaterial here: numbers are
only consumed through `float(str(...))` conversions and truthiness). -/
inductive Json where
  | null
  | bool (b : Bool)
  | num (v : PyFloat)
  | str (s : String)
  | arr (items : List Json)
  | obj (fields : List (String × Json))

/-- First binding for a key (Python dict keys are unique, so first match is
the dict lookup). -/
def lookupKey : List (String × Json) → String → Option Json
  | [], _ => none
  | (k, v) :: rest, key => if k = key then some v else lookupKey rest key

/-- Python `d.get(key)` on a decoded JSON object.  The sources only call
`.get` after an `isinstance(obj, dict)` guard except in
`_pick_article_obj`, where a non-dict entry would raise `AttributeError`;
that unreached case is modelled as an absent key. -/
def Json.get (j : Json) (key : String) : Option Json :=
  match j with
  | Json.obj fields => lookupKey fields key
  | _ => none

/-- Python truthiness of a decoded JSON value. -/
def Json.truthy : Json → Bool
  | Json.null => false
  | Json.bool b => b
  | Json.num v => !(v.m == 0)
  | Json.str s => !(s == "")
  | Json.arr items => !items.isEmpty
  | Json.obj fields => !fields.isEmpty

/-- Python `x or y` on optional JSON values (`none` models Python `None`). -/
def pyOrJ (a b : Option Json) : Option Json :=
  match a with
  | some v => if v.truthy then some v else b
  | none => b

/-- Truthiness of an optional string (`None` and `""` are falsy). -/
def truthyOS : Option String → Bool
  | some s => !(s == "")
  | none => false

/-- Python `x or y` on optional strings. -/
def pyOrS (a b : Option String) : Option String :=
  match a with
  | some s => if s == "" then b else some s
  | none => b

/-- Python `sep.join(parts)` at the character-list level. -/
def joinWithL (sep : List Char) : List (List Char) → List Char
  | [] => []
  | [x] => x
  | x :: y :: rest => x ++ sep ++ joinWithL sep (y :: rest)

/-- Python `sep.join(parts)` on strings. -/
def joinWith (sep : String) (l : List String) : String :=
  String.mk (joinWithL sep.data (l.map String.data))

/-- Decimal digits of a natural number, most significant first (the fuel
argument strictly bounds the number of digits). -/
def natReprGo : Nat → Nat → List Char
  | 0, _ => []
  | fuel + 1, n =>
      if n < 10 then [Nat.digitChar n]
      else natReprGo fuel (n / 10) ++ [Nat.digitChar (n % 10)]

/-- Python `str` of a non-negative int, as characters. -/
def natReprL (n : Nat) : List Char :=
  natReprGo (n + 1) n

/-- Drop trailing zero decimals, mirroring how `repr` of a Python float
prints the shortest decimal form. -/
def stripZerosGo : Int → Nat → Int × Nat
  | m, 0 => (m, 0)
  | m, e + 1 => if m % 10 == 0 then stripZerosGo (m / 10) e else (m, e + 1)

/-- Canonical decimal form of a `PyFloat`. -/
def stripZeros (v : PyFloat) : PyFloat :=
  let r := stripZerosGo v.m v.e
  ⟨r.1, r.2⟩

/-- Python `str()` of a JSON-decoded number.  Faithful for ints and for the
float values reachable here (short decimals); an integral float would
print as `5.0` in Python but renders as `5` here, which is immaterial
because the result is only consumed by `float(...)` or string joins. -/
def renderNum (v : PyFloat) : String :=
  let w := stripZeros v
  let sign : List Char := if w.m < 0 then ['-'] else []
  let digs := natReprL w.m.natAbs
  if w.e = 0 then String.mk (sign ++ digs)
  else
    let padded := List.replicate (w.e + 1 - digs.length) '0' ++ digs
    String.mk (sign ++ padded.take (padded.length - w.e) ++ '.' :: padded.drop (padded.length - w.e))

/-- Python `str()` of a JSON-decoded value.  The container cases print a
`repr`-like placeholder; no claim reaches them (they could only arise from
pathological structured data such as a list-valued author name). -/
def pyStr : Json → String
  | Json.null => "None"
  | Json.bool b => if b then "True" else "False"
  | Json.num v => renderNum v
  | Json.str s => s
  | Json.arr _ => "[...]"
  | Json.obj _ => "\x7b...\x7d"

/-- ASCII lowercasing (Python `.lower()` restricted to the ASCII data this
code processes). -/
def lcChar (c : Char) : Char :=
  if 65 ≤ c.toNat && c.toNat ≤ 90 then Char.ofNat (c.toNat + 32) else c

/-- Lowercase a character list. -/
def lowerL (l : List Char) : List Char :=
  l.map lcChar

/-- Substring test (`pat in hay` / `re.search` of a literal pattern). -/
def subList : List Char → List Char → Bool
  | [], pat => pat.isEmpty
  | c :: t, pat => pat.isPrefixOf (c :: t) || subList t pat

/-- Comma-join the `@type` list (`",".join(types)`); a string passes
through.  Joining a list holding a non-string would raise `TypeError` in
Python; that unreached case yields `none` (treated as no match). -/
def joinTypes : Option Json → Option String
  | some (Json.str s) => some s
  | some (Json.arr l) =>
      if l.all (fun j => match j with | Json.str _ => true | _ => false) then
        some (String.mk (joinWithL [','] (l.map (fun j => match j with | Json.str s => s.data | _ => []))))
      else none
  | _ => none

/-- The guard `types and isinstance(types, str) and re.search(r"Product|Offer", types, re.I)`. -/
def typesOk (t : Option Json) : Bool :=
  match joinTypes t with
  | some s => !(s == "") && (subList (lowerL s.data) "product".data || subList (lowerL s.data) "offer".data)
  | none => false

/-- Is this JSON value an object (Python `isinstance(x, dict)`)? -/
def isObjJ : Json → Bool
  | Json.obj _ => true
  | _ => false

/-- The offers resolution `offers = obj.get("offers") or obj`, with a list
collapsed to its first dict entry (`next((o for o in offers if
isinstance(o, dict)), {})`). -/
def offersOf (obj : Json) : Json :=
  match pyOrJ (obj.get "offers") (some obj) with
  | some (Json.arr l) =>
      match l.find? isObjJ with
      | some d => d
      | none => Json.obj []
  | some j => j
  | none => Json.obj []

/-- Mutable locals of the JSON-LD scan loop in
`AmazonPriceTracker.parse`. -/
structure LdState where
  price : Option PyFloat
  currency : Option String
  title : Option String
  asin : Option String

/-- Python `str(p).replace(",", ".")`. -/
def strReplaceCommaDot (s : String) : String :=
  String.mk (s.data.map (fun c => if c == ',' then '.' else c))

/-- `re.fullmatch(r"[A-Z0-9]{10}", s)`. -/
def isAsin10 (s : String) : Bool :=
  s.data.length == 10 && s.data.all (fun c => (65 ≤ c.toNat && c.toNat ≤ 90) || isDigitC c)

/-- Price update of one loop iteration: inside the type-matched branch,
`p = offers.get("price") or offers.get("lowPrice")`, converted with
`float(str(p).replace(",", "."))` when truthy and no price was found yet;
a conversion failure leaves the price unchanged. -/
def ldPriceUpd (st : LdState) (obj : Json) : Option PyFloat :=
  if typesOk (obj.get "@type") then
    match offersOf obj with
    | Json.obj ofs =>
        match pyOrJ ((Json.obj ofs).get "price") ((Json.obj ofs).get "lowPrice") with
        | some pv =>
            if pv.truthy && st.price.isNone then
              match pyFloatChars (strReplaceCommaDot (pyStr pv)).data with
              | some v => some v
              | none => st.price
            else st.price
        | none => st.price
    | _ => st.price
  else st.price

/-- Currency update from a looked-up `priceCurrency` value:
`if curr and not currency: currency = str(curr)`. -/
def currFromCv (st : LdState) (cv : Option Json) : Option String :=
  match cv with
  | some cv => if cv.truthy && !truthyOS st.currency then some (pyStr cv) else st.currency
  | none => st.currency

/-- Currency update guarded by `isinstance(offers, dict)`. -/
def currFromOffers (st : LdState) (offers : Json) : Option String :=
  match offers with
  | Json.obj ofs => currFromCv st ((Json.obj ofs).get "priceCurrency")
  | _ => st.currency

/-- Currency update of one loop iteration. -/
def ldCurrUpd (st : LdState) (obj : Json) : Option String :=
  if typesOk (obj.get "@type") then currFromOffers st (offersOf obj) else st.currency

/-- Title update of one loop iteration: a string `name` always overwrites
the current title with its cleaned form (this runs for every dict object,
outside the type check). -/
def ldTitleUpd (st : LdState) (obj : Json) : Option String :=
  match obj.get "name" with
  | some (Json.str nm) => cleanText (some nm)
  | _ => st.title

/-- ASIN update of one loop iteration: `if not asin: sku = obj.get("sku")
or obj.get("mpn")` with a full-match check. -/
def ldAsinUpd (st : LdState) (obj : Json) : Option String :=
  if truthyOS st.asin then st.asin
  else
    match pyOrJ (obj.get "sku") (obj.get "mpn") with
    | some (Json.str sk) => if isAsin10 sk then some sk else st.asin
    | _ => st.asin

/-- One iteration of the JSON-LD object loop; non-dict candidates are
skipped (`continue`). -/
def ldStep (st : LdState) (obj : Json) : LdState :=
  match obj with
  | Json.obj _ =>
      { price := ldPriceUpd st obj, currency := ldCurrUpd st obj,
        title := ldTitleUpd st obj, asin := ldAsinUpd st obj }
  | _ => st

/-- Candidate objects of one script block:
`objs = data if isinstance(data, list) else [data]`, and a failed
`json.loads` contributes nothing. -/
def ldObjsOfScript : Option Json → List Json
  | none => []
  | some (Json.arr l) => l
  | some j => [j]

/-- The whole JSON-LD scan loop over all matching script blocks. -/
def ldScripts (scripts : List (Option Json)) (st : LdState) : LdState :=
  scripts.foldl (fun s scr => (ldObjsOfScript scr).foldl ldStep s) st

/-- An element returned by `select_one`, carrying its `get_text()` and its
`content` attribute. -/
structure PElem where
  text : String
  content : Option String
deriving DecidableEq

/-- Query results that `AmazonPriceTracker.parse` reads from the parsed
document (BeautifulSoup modelled at its interface).  An outer `none`
means the element/tag is absent; for attribute lookups the inner option is
the attribute value. -/
structure PSoup where
  productTitleText : Option String
  ogTitle : Option (Option String)
  asinInput : Option (Option String)
  dataAsin : Option (Option String)
  scripts : List (Option Json)
  priceSels : List (Option PElem)
  wholeText : Option String
  fracText : Option String
  avail1 : Option String
  avail2 : Option String
  avail3 : Option String

/-- A fully empty document model. -/
def emptyPSoup : PSoup :=
  { productTitleText := none, ogTitle := none, asinInput := none, dataAsin := none,
    scripts := [], priceSels := [none, none, none, none, none],
    wholeText := none, fracText := none, avail1 := none, avail2 := none, avail3 := none }

/-- A product page whose structured data carries a negative offer price. -/
def negPSoup : PSoup :=
  { emptyPSoup with
    scripts := [some (Json.obj
      [("@type", Json.str "Product"), ("offers", Json.obj [("price", Json.str "-5")])])] }

/-- A product page whose price is only available through a fallback
selector, priced in pounds. -/
def wPSoup : PSoup :=
  { emptyPSoup with
    priceSels := [some { text := "£12.34", content := none }, none, none, none, none] }

/-- Character class of the ASIN pattern `[A-Z0-9]`. -/
def isAsinChar (c : Char) : Bool :=
  (65 ≤ c.toNat && c.toNat ≤ 90) || isDigitC c

/-- Match `/(?:dp|gp/product)/([A-Z0-9]{10})(?:/|\?|$)` anchored at the
start of `l`. -/
def asinAt (l : List Char) : Option String :=
  let tryPre : List Char → Option String := fun pre =>
    if pre.isPrefixOf l then
      let rest := l.drop pre.length
      let g := rest.take 10
      if g.length == 10 && g.all isAsinChar then
        match rest.drop 10 with
        | [] => some (String.mk g)
        | c :: _ => if c == '/' || c == '?' then some (String.mk g) else none
      else none
    else none
  match tryPre "/dp/".data with
  | some a => some a
  | none => tryPre "/gp/product/".data

/-- Leftmost match of the ASIN pattern (`re.search`). -/
def asinScan : List Char → Option String
  | [] => none
  | c :: t =>
      match asinAt (c :: t) with
      | some a => some a
      | none => asinScan t

/-- The `data-asin` fallback of `_extract_asin`. -/
def dataAsinOf (soup : PSoup) : Option String :=
  match soup.dataAsin with
  | some (some a) => if !(a == "") && isAsin10 a then some a else none
  | _ => none

/-- `_extract_asin` of `amazon_price_tracker.py`: URL pattern, then hidden
input value, then a validated `data-asin` attribute. -/
def _extract_asin (url : String) (soup : PSoup) : Option String :=
  match asinScan url.data with
  | some a => some a
  | none =>
      match soup.asinInput with
      | some (some value) =>
          if !(value == "") then some (pyStrip value)
          else dataAsinOf soup
      | _ => dataAsinOf soup

/-- Heuristic title of `AmazonPriceTracker.parse` before the JSON-LD scan:
`#productTitle` text, else the `og:title` content. -/
def titleHeur (soup : PSoup) : Option String :=
  match cleanText soup.productTitleText with
  | some t => some t
  | none =>
      match soup.ogTitle with
      | some c => cleanText c
      | none => none

/-- Locals at entry of the JSON-LD scan loop. -/
def initState (soup : PSoup) (base_url : String) : LdState :=
  { price := none, currency := none, title := titleHeur soup, asin := _extract_asin base_url soup }

/-- Python `el.get_text() or el.get("content")`. -/
def textOrContent (e : PElem) : Option String :=
  if e.text == "" then e.content else some e.text

/-- The fallback selector loop: `el` holds the last queried element; the
loop breaks at the first element with non-empty cleaned text or content. -/
def pickSel : Option PElem → List (Option PElem) → Option PElem
  | el, [] => el
  | _, r :: rest =>
      match r with
      | some e => if (cleanText (textOrContent e)).isSome then some e else pickSel (some e) rest
      | none => pickSel none rest

/-- The fallback-selector price block of `AmazonPriceTracker.parse` (only
executed when no JSON-LD price was found): parse the chosen element's
cleaned text, record value and symbol. -/
def selectorPrice (soup : PSoup) : Option PyFloat × Option String :=
  match pickSel none soup.priceSels with
  | some e =>
      match pyOrS (cleanText (some e.text)) (cleanText e.content) with
      | some txt =>
          let r := _parse_price_and_symbol txt
          (r.1, pyOrS r.2 none)
      | none => (none, none)
  | none => (none, none)

/-- Python's format item `{...:02d}` on a non-negative int. -/
def fmt02 (n : Nat) : List Char :=
  if n < 10 then '0' :: natReprL n else natReprL n

/-- The `a-price-whole` / `a-price-fraction` reconstruction:
`float(f"{int(w)}.{int(f) if f else 0:02d}")` after digit filtering,
applied only when the whole element exists and has digits. -/
def wholeFracPrice (soup : PSoup) : Option PyFloat :=
  match soup.wholeText with
  | some wt =>
      let w := wt.data.filter isDigitC
      let f := match soup.fracText with
               | some ft => ft.data.filter isDigitC
               | none => []
      if w.isEmpty then none
      else pyFloatChars (natReprL (digitsVal w) ++ '.' :: fmt02 (if f.isEmpty then 0 else digitsVal f))
  | none => none

/-- The output entity of the price tracker; `timestamp` is the wall-clock
argument threaded into `parse` (the code calls `_now_iso_utc()`). -/
structure PriceInfo where
  url : String
  asin : Option String
  title : Option String
  price : Option PyFloat
  currency : Option String
  symbol : Option String
  availability : Option String
  timestamp : String
deriving DecidableEq

/-- Price/symbol pair after the fallback-selector block: the JSON-LD price
when one was found (with no symbol recorded), else the selector result. -/
def priceSymbolPair (soup : PSoup) (st : LdState) : Option PyFloat × Option String :=
  if st.price.isNone then selectorPrice soup else (st.price, none)

/-- Final currency resolution: keep a truthy scanned currency, else map a
truthy symbol through `_CURRENCY_SYMBOLS.get`. -/
def finalCurrency (st : LdState) (symbol : Option String) : Option String :=
  if truthyOS st.currency then st.currency
  else
    match symbol with
    | some sy => if !(sy == "") then lookupPairs _CURRENCY_SYMBOLS sy else st.currency
    | none => st.currency

/-- Candidate currency strings from a looked-up `priceCurrency` value. -/
def candsFromCv (cv : Option Json) : List String :=
  match cv with
  | some cv => if cv.truthy then [pyStr cv] else []
  | none => []

/-- Candidate currency strings of a resolved offers value. -/
def candsFromOffers (offers : Json) : List String :=
  match offers with
  | Json.obj ofs => candsFromCv ((Json.obj ofs).get "priceCurrency")
  | _ => []

/-- The `priceCurrency` strings a single JSON-LD candidate object can
contribute (mirrors the guards of `ldCurrUpd`). -/
def currCandsOfObj (obj : Json) : List String :=
  match obj with
  | Json.obj _ =>
      if typesOk (obj.get "@type") then candsFromOffers (offersOf obj) else []
  | _ => []

/-- All structured-data `priceCurrency` strings of a document's script
blocks. -/
def currCands (scripts : List (Option Json)) : List String :=
  (scripts.map (fun s => ((ldObjsOfScript s).map currCandsOfObj).flatten)).flatten

/-- Per-attempt outcome of `session.get`: a transport-level
`RequestException`, or a response with a status, a parsed document and a
final (post-redirect) URL.  The `Retry-After` header only changes how long
the loop sleeps and is not modelled. -/
inductive TEvent where
  | exc
  | resp (status : Nat) (doc : PSoup) (finalUrl : String)

/-- Result of the fetch loop, counting the requests actually issued. -/
inductive FetchResult where
  | ok (doc : PSoup) (requests : Nat)
  | httpError (status : Nat) (requests : Nat)
  | netError (requests : Nat)

/-- The transient status set `{429, 500, 502, 503, 504}`. -/
def transientStatus (st : Nat) : Bool :=
  st == 429 || st == 500 || st == 502 || st == 503 || st == 504

namespace AmazonPriceTracker

/-- The attempt loop of `AmazonPriceTracker.fetch` for
`attempt in range(1, max_retries + 2)`: a transient status with attempts
remaining retries; otherwise `raise_for_status` turns any status >= 400
into an `HTTPError` that the generic `except requests.RequestException`
handler catches and, like a transport failure, retries while attempts
remain; a sub-400 status returns the body.  `none` means the scripted
transport ran out of events (more requests than the script covers). -/
def fetchGo (max_retries : Nat) : Nat → List TEvent → Option FetchResult
  | _, [] => none
  | attempt, TEvent.exc :: rest =>
      if max_retries < attempt then some (FetchResult.netError attempt)
      else fetchGo max_retries (attempt + 1) rest
  | attempt, TEvent.resp status doc _ :: rest =>
      if transientStatus status = true ∧ attempt ≤ max_retries then
        fetchGo max_retries (attempt + 1) rest
      else if 400 ≤ status then
        if max_retries < attempt then some (FetchResult.httpError status attempt)
        else fetchGo max_retries (attempt + 1) rest
      else some (FetchResult.ok doc attempt)

/-- `AmazonPriceTracker.fetch` on a scripted transport.  The returned
`ok` deliberately carries no final URL: the method returns only
`resp.text` and lower-cased headers, discarding `resp.url`. -/
def fetch (max_retries : Nat) (events : List TEvent) : Option FetchResult :=
  fetchGo max_retries 1 events

/-- `AmazonPriceTracker.parse`: heuristic title and ASIN, JSON-LD scan,
fallback selectors, whole/fraction reconstruction, availability, and the
symbol-to-ISO-4217 fallback for the currency. -/
def parse (soup : PSoup) (base_url : String) (now : String) : PriceInfo :=
  let st := ldScripts soup.scripts (initState soup base_url)
  let sp := priceSymbolPair soup st
  let price2 := if sp.1.isNone then wholeFracPrice soup else sp.1
  let availability :=
    match (soup.avail1.orElse (fun _ => soup.avail2)).orElse (fun _ => soup.avail3) with
    | some t => cleanText (some t)
    | none => none
  { url := base_url, asin := st.asin, title := st.title, price := price2,
    currency := finalCurrency st sp.2, symbol := sp.2, availability := availability,
    timestamp := now }

/-- `AmazonPriceTracker.get_price`: fetch then parse, with the parse base
URL being the caller's request URL (fetch exposes no final URL). -/
def get_price (max_retries : Nat) (events : List TEvent) (url : String) (now : String) :
    Option (Option PriceInfo) :=
  match fetch max_retries events with
  | none => none
  | some (FetchResult.ok doc _) => some (some (parse doc url now))
  | some _ => some none

/-- `AmazonPriceTracker.track` returns exactly the `get_price` record; the
optional JSONL append is an I/O effect outside the record. -/
def track (max_retries : Nat) (events : List TEvent) (url : String) (now : String) :
    Option (Option PriceInfo) :=
  get_price max_retries events url now

end AmazonPriceTracker

/-- `_get_meta`: the content attribute of a found meta tag, when truthy
(outer option: tag found; inner option: attribute present). -/
def getMeta : Option (Option String) → Option String
  | some (some c) => if c == "" then none else some c
  | _ => none

/-- `_first(*values)`: the first value that is truthy and has a truthy
strip, returned stripped. -/
def firstNE : List (Option String) → Option String
  | [] => none
  | v :: rest =>
      match v with
      | some s =>
          if s == "" then firstNE rest
          else if pyStrip s == "" then firstNE rest
          else some (pyStrip s)
      | none => firstNE rest

/-- An `article`/`main` container (or the body): the `get_text(" ")` of its
paragraph elements in order, and the `(src, data-src)` attributes of its
`img` elements. -/
structure PNode where
  paras : List String
  imgs : List (Option String × Option String)

/-- Query results that `NewsScraper.parse` reads from the parsed document
(BeautifulSoup modelled at its interface).  Each meta field is the result
of the corresponding tag lookup: outer option is tag presence, inner the
content attribute. -/
structure NSoup where
  metaOgSiteName : Option (Option String)
  metaAppName : Option (Option String)
  metaTwitterSite : Option (Option String)
  scripts : List (Option Json)
  metaOgTitle : Option (Option String)
  metaTwitterTitle : Option (Option String)
  metaOgDesc : Option (Option String)
  metaTwitterDesc : Option (Option String)
  metaAuthor : Option (Option String)
  metaArticleAuthor : Option (Option String)
  metaArticlePublished : Option (Option String)
  metaPubdate : Option (Option String)
  metaDate : Option (Option String)
  metaOgUpdated : Option (Option String)
  metaOgImage : Option (Option String)
  metaTwitterImage : Option (Option String)
  titleString : Option String
  h1Text : Option String
  articleNodes : List PNode
  bodyNode : Option PNode

/-- A fully empty news document model. -/
def emptyNSoup : NSoup :=
  { metaOgSiteName := none, metaAppName := none, metaTwitterSite := none, scripts := [],
    metaOgTitle := none, metaTwitterTitle := none, metaOgDesc := none, metaTwitterDesc := none,
    metaAuthor := none, metaArticleAuthor := none, metaArticlePublished := none,
    metaPubdate := none, metaDate := none, metaOgUpdated := none, metaOgImage := none,
    metaTwitterImage := none, titleString := none, h1Text := none,
    articleNodes := [], bodyNode := none }

/-- The `@graph` unwrapping of `_iter_jsonld_objects` for a dict block. -/
def graphOrSelf (fs : List (String × Json)) : List Json :=
  match lookupKey fs "@graph" with
  | some (Json.arr g) => g
  | _ => [Json.obj fs]

/-- `_iter_jsonld_objects` on one script block: list items, graph entries,
or the dict itself; failed decodes and scalar blocks yield nothing. -/
def iterObjsOfScript : Option Json → List Json
  | none => []
  | some (Json.arr l) => l
  | some (Json.obj fs) => graphOrSelf fs
  | some _ => []

/-- The lowered type names of a declared `@type`
(`[str(x).lower() for x in t]` or `[str(t).lower()]`). -/
def typeNames (t : Json) : List String :=
  match t with
  | Json.arr l => l.map (fun x => String.mk (lowerL (pyStr x).data))
  | _ => [String.mk (lowerL (pyStr t).data)]

/-- Membership in `("article", "newsarticle", "blogposting")`. -/
def isArticleTypeName (x : String) : Bool :=
  x == "article" || x == "newsarticle" || x == "blogposting"

/-- `_pick_article_obj`: the first candidate whose truthy `@type` matches
the article type set. -/
def pickArticleObj : List Json → Option Json
  | [] => none
  | obj :: rest =>
      match obj.get "@type" with
      | some t =>
          if t.truthy then
            if (typeNames t).any isArticleTypeName then some obj else pickArticleObj rest
          else pickArticleObj rest
      | none => pickArticleObj rest

/-- View a JSON value as the optional string `_first` expects; a truthy
non-string here would crash Python's `_first` on `.strip()` - a case no
claim reaches - and is modelled as absent. -/
def jStrOpt : Option Json → Option String
  | some (Json.str s) => some s
  | _ => none

/-- `title_ld = article_obj.get("headline") or article_obj.get("name")`. -/
def titleLdOf (a : Json) : Option String :=
  jStrOpt (pyOrJ (a.get "headline") (a.get "name"))

/-- The description extraction, unwrapping a dict candidate through
`@value` / `text`. -/
def descLdOf (a : Json) : Option String :=
  match a.get "description" with
  | some (Json.obj fs) => jStrOpt (pyOrJ ((Json.obj fs).get "@value") ((Json.obj fs).get "text"))
  | other => jStrOpt other

/-- Flatten an author list into names (`str(a.get("name") or a.get("@id"))`
for dict entries, raw strings pass through). -/
def authorNamesOf (items : List Json) : List String :=
  items.foldr (fun it acc =>
    match it with
    | Json.obj _ =>
        (match pyOrJ (it.get "name") (it.get "@id") with
         | some n => if n.truthy then pyStr n :: acc else acc
         | none => acc)
    | Json.str s => s :: acc
    | _ => acc) []

/-- The author extraction over the three JSON shapes. -/
def authorLdOf (a : Json) : Option String :=
  match a.get "author" with
  | some (Json.arr items) =>
      let joined := joinWith ", " ((authorNamesOf items).filter (fun x => !(x == "")))
      if joined == "" then none else some joined
  | some (Json.obj fs) => jStrOpt (pyOrJ ((Json.obj fs).get "name") ((Json.obj fs).get "@id"))
  | some (Json.str s) => some s
  | _ => none

/-- `datePublished or dateCreated or dateModified`. -/
def publishedLdOf (a : Json) : Option String :=
  jStrOpt (pyOrJ (pyOrJ (a.get "datePublished") (a.get "dateCreated")) (a.get "dateModified"))

/-- The image extraction over dict / non-empty list / string shapes. -/
def imageLdOf (a : Json) : Option String :=
  match a.get "image" with
  | some (Json.obj fs) => jStrOpt (pyOrJ ((Json.obj fs).get "url") ((Json.obj fs).get "contentUrl"))
  | some (Json.arr (first :: _)) =>
      match first with
      | Json.obj fs => jStrOpt (pyOrJ ((Json.obj fs).get "url") ((Json.obj fs).get "contentUrl"))
      | j => some (pyStr j)
  | some (Json.arr []) => none
  | some (Json.str s) => some s
  | _ => none

/-- Cleaned paragraph texts of one container (`txt = _clean_text(...)`,
appended when truthy). -/
def collectNodeParas (n : PNode) : List String :=
  n.paras.filterMap (fun p => cleanText (some p))

/-- The container scan: after each container, stop once the accumulated
length exceeds 500 characters. -/
def collectGo : List PNode → List String → List String
  | [], acc => acc
  | n :: rest, acc =>
      let acc2 := acc ++ collectNodeParas n
      if 500 < (acc2.map (fun s => s.data.length)).sum then acc2 else collectGo rest acc2

/-- `nodes_to_scan = article_nodes or [soup.body] if soup.body else []`
(the conditional binds the whole `or`-expression, so a missing body means
nothing is scanned even when article containers exist). -/
def nodesToScan (doc : NSoup) : List PNode :=
  match doc.bodyNode with
  | some b => if doc.articleNodes.isEmpty then [b] else doc.articleNodes
  | none => []

/-- All collected paragraph texts of the document. -/
def collectParas (doc : NSoup) : List String :=
  collectGo (nodesToScan doc) []

/-- The meta-image collection step: a truthy content attribute, resolved,
appended when the resolved URL is truthy. -/
def metaImgStep (ujoin : String → String → String) (base : String)
    (m : Option (Option String)) : List String :=
  match m with
  | some (some c) =>
      if c == "" then []
      else if ujoin base c == "" then [] else [ujoin base c]
  | _ => []

/-- One `img` element: `src = img.get("src") or img.get("data-src")`,
resolved, kept when the resolved URL is truthy. -/
def imgOfAttrs (ujoin : String → String → String) (base : String)
    (src : Option String × Option String) : Option String :=
  match pyOrS src.1 src.2 with
  | some u =>
      if u == "" then none
      else if ujoin base u == "" then none else some (ujoin base u)
  | none => none

/-- The image collection order: `og:image`, `twitter:image`, then the
`img` elements of the article containers. -/
def collectImages (ujoin : String → String → String) (doc : NSoup) (base : String) : List String :=
  metaImgStep ujoin base doc.metaOgImage ++ metaImgStep ujoin base doc.metaTwitterImage
    ++ (doc.articleNodes.map (fun n => n.imgs.filterMap (imgOfAttrs ujoin base))).flatten

/-- First-seen-order deduplication with a seen set. -/
def dedupGo : List String → List String → List String
  | [], _ => []
  | u :: rest, seen => if u ∈ seen then dedupGo rest seen else u :: dedupGo rest (u :: seen)

/-- `seen`-set deduplication preserving order. -/
def dedup (l : List String) : List String :=
  dedupGo l []

/-- The output entity of the news scraper. -/
structure Article where
  url : String
  source : Option String
  title : Option String
  author : Option String
  published_at : Option String
  description : Option String
  content : Option String
  top_image : Option String
  images : List String
deriving DecidableEq

/-- The JSON-LD article candidate of a document. -/
def articleObjOf (doc : NSoup) : Option Json :=
  pickArticleObj ((doc.scripts.map iterObjsOfScript).flatten)

/-- The `title_ld` signal of a document. -/
def titleLdPart (doc : NSoup) : Option String :=
  match articleObjOf doc with
  | some a => titleLdOf a
  | none => none

/-- The `og:title` / `twitter:title` signal. -/
def titleOgPart (doc : NSoup) : Option String :=
  firstNE [getMeta doc.metaOgTitle, getMeta doc.metaTwitterTitle]

/-- The `<title>` fallback (`if soup.title and soup.title.string`). -/
def titleTagPart (doc : NSoup) : Option String :=
  match doc.titleString with
  | some s => if s == "" then none else some s
  | none => none

/-- The resolved title:
`_clean_text(_first(title_ld, title_og, title_tag, h1_text))`. -/
def resolveTitle (doc : NSoup) : Option String :=
  cleanText (firstNE [titleLdPart doc, titleOgPart doc, titleTagPart doc, doc.h1Text])

/-- `content_text`: the blank-line join of the collected paragraphs, when
any were collected. -/
def contentTextOf (doc : NSoup) : Option String :=
  if (collectParas doc).isEmpty then none else some (joinWith "\n\n" (collectParas doc))

namespace NewsScraper

/-- `NewsScraper.parse`: multi-signal resolution into an `Article`.  The
external `urllib.parse.urljoin` collaborator is the `ujoin` parameter. -/
def parse (ujoin : String → String → String) (doc : NSoup) (base_url : String) : Article :=
  let site_name := firstNE [getMeta doc.metaOgSiteName, getMeta doc.metaAppName,
                            getMeta doc.metaTwitterSite]
  let author_ld := match articleObjOf doc with | some a => authorLdOf a | none => none
  let published_ld := match articleObjOf doc with | some a => publishedLdOf a | none => none
  let description_ld := match articleObjOf doc with | some a => descLdOf a | none => none
  let image_ld := match articleObjOf doc with | some a => imageLdOf a | none => none
  let desc_og := firstNE [getMeta doc.metaOgDesc, getMeta doc.metaTwitterDesc]
  let author_meta := firstNE [getMeta doc.metaAuthor, getMeta doc.metaArticleAuthor]
  let published_meta := firstNE [getMeta doc.metaArticlePublished, getMeta doc.metaPubdate,
                                 getMeta doc.metaDate, getMeta doc.metaOgUpdated]
  let image_og := firstNE [getMeta doc.metaOgImage, getMeta doc.metaTwitterImage]
  let dedup_images := dedup (collectImages ujoin doc base_url)
  { url := base_url,
    source := cleanText site_name,
    title := resolveTitle doc,
    author := cleanText (firstNE [author_ld, author_meta]),
    published_at := cleanText (firstNE [published_ld, published_meta]),
    description := cleanText (firstNE [description_ld, desc_og]),
    content := cleanText (contentTextOf doc),
    top_image := (firstNE [image_ld, image_og, dedup_images.head?]).map (fun u => ujoin base_url u),
    images := dedup_images }

end NewsScraper

/-- The two-paragraph article page of the C3 analysis. -/
def para2NSoup : NSoup :=
  { emptyNSoup with
    articleNodes := [{ paras := ["A.", "B."], imgs := [] }],
    bodyNode := some { paras := [], imgs := [] } }

/-- No two adjacent whitespace characters. -/
def noAdjWs (l : List Char) : Prop :=
  List.Chain' (fun a b => ¬(pyWs a = true ∧ pyWs b = true)) l

/-- Shape of a cleaned text chunk: non-empty, whitespace only as single
interior spaces, with non-whitespace ends. -/
def chunkOk (l : List Char) : Prop :=
  l ≠ [] ∧ (∀ c ∈ l, pyWs c = true → c = ' ')
    ∧ noAdjWs l
    ∧ (∀ c, l.head? = some c → pyWs c = false)
    ∧ (∀ c, l.getLast? = some c → pyWs c = false)

/-- Whether the collapse state after emitting `q` (starting from `prev`)
is inside a whitespace run. -/
def lastWsState : List Char → Bool → Bool
  | [], prev => prev
  | c :: q, _ => lastWsState q (pyWs c)

/-- A news page carrying a structured-data `NewsArticle` headline together
with conflicting OpenGraph and Twitter titles. -/
def c7doc : NSoup :=
  { emptyNSoup with
    scripts := [some (Json.obj
      [("@type", Json.str "NewsArticle"), ("headline", Json.str "Real Headline")])],
    metaOgTitle := some (some "Fake OG Title"),
    metaTwitterTitle := some (some "Fake Twitter Title") }

end PyUtil

namespace PyUtil

/-- C1 (amended): on the three spec examples the parser returns
`(1234.56, "$")`, `(12.34, "£")` and, for the European form `"1.234,56"`,
`(1.23456, None)` - with both separators present every comma is stripped
and the dot is the decimal separator, so the value is 1.23456 rather than
the claimed 1234.56. -/
theorem C1_amended :
    (_parse_price_and_symbol "$1,234.56" = (some (PyFloat.mk 123456 2), some "$")
      ∧ (PyFloat.mk 123456 2).toRat = 1234.56)
    ∧ (_parse_price_and_symbol "£12.34" = (some (PyFloat.mk 1234 2), some "£")
      ∧ (PyFloat.mk 1234 2).toRat = 12.34)
    ∧ (_parse_price_and_symbol "1.234,56" = (some (PyFloat.mk 123456 5), none)
      ∧ (PyFloat.mk 123456 5).toRat = 1.23456) :=
  ⟨⟨by decide, by norm_num [PyFloat.toRat]⟩,
   ⟨by decide, by norm_num [PyFloat.toRat]⟩,
   ⟨by decide, by norm_num [PyFloat.toRat]⟩⟩

/-- C1 (counterexample): on `"1.234,56"` the parser returns the value
1.23456, not the claimed 1234.56. -/
theorem C1_counterexample :
    (_parse_price_and_symbol "1.234,56").1 = some (PyFloat.mk 123456 5)
    ∧ (PyFloat.mk 123456 5).toRat ≠ 1234.56 :=
  ⟨by decide, by norm_num [PyFloat.toRat]⟩

/-- C8: on the separator residue of any input text, if both `.` and `,`
occur then every comma is removed (grouping) and the dot kept as decimal;
if only commas occur and the group after the last comma has 1 or 2 digits,
every comma is replaced by a decimal dot (in particular the last one
becomes the decimal separator); otherwise every comma is removed. -/
theorem C8_prop (text : String) :
    ((priceCandidate text).any (fun c => c == ',') = true
        → (priceCandidate text).any (fun c => c == '.') = true
        → normalizeCandidate (priceCandidate text)
            = (priceCandidate text).filter (fun c => !(c == ',')))
    ∧ ((priceCandidate text).any (fun c => c == ',') = true
        → (priceCandidate text).any (fun c => c == '.') = false
        → ((lastGroup (priceCandidate text)).length = 1 ∨ (lastGroup (priceCandidate text)).length = 2)
        → normalizeCandidate (priceCandidate text)
            = (priceCandidate text).map (fun c => if c == ',' then '.' else c))
    ∧ ((priceCandidate text).any (fun c => c == ',') = true
        → (priceCandidate text).any (fun c => c == '.') = false
        → ¬((lastGroup (priceCandidate text)).length = 1 ∨ (lastGroup (priceCandidate text)).length = 2)
        → normalizeCandidate (priceCandidate text)
            = (priceCandidate text).filter (fun c => !(c == ','))) := by
  refine ⟨fun hc hd => ?_, fun hc hd hl => ?_, fun hc hd hl => ?_⟩
  · simp [normalizeCandidate, hc, hd]
  · have hfix : (priceCandidate text).filter (fun c => !(c == '.')) = priceCandidate text := by
      apply List.filter_eq_self.mpr
      intro a ha
      simp only [Bool.not_eq_true', beq_eq_false_iff_ne]
      intro hEq
      subst hEq
      have hany : (priceCandidate text).any (fun c => c == '.') = true :=
        List.any_eq_true.mpr ⟨'.', ha, by simp⟩
      simp [hany] at hd
    simp [normalizeCandidate, hc, hd, hl, hfix]
  · simp [normalizeCandidate, hc, hd, hl]

/-- C8 (witness): the both-separators case at the concrete residue of
`"1.234,56"`. -/
theorem C8_witness :
    normalizeCandidate (priceCandidate "1.234,56")
      = (priceCandidate "1.234,56").filter (fun c => !(c == ',')) :=
  (C8_prop "1.234,56").1 (by decide) (by decide)

/-- C10: the stripped currency symbol is always reported in the second
component, and whenever the separator residue is empty or the normalized
residue fails to parse as a float the value component is absent; the
parser is total, so malformed input never raises. -/
theorem C10_prop (text : String) :
    (_parse_price_and_symbol text).2 = (pricePre text).2
    ∧ ((priceCandidate text).isEmpty = true → (_parse_price_and_symbol text).1 = none)
    ∧ (pyFloatChars (normalizeCandidate (priceCandidate text)) = none
        → (_parse_price_and_symbol text).1 = none) := by
  refine ⟨?_, fun h => ?_, fun h => ?_⟩
  · by_cases hc : (priceCandidate text).isEmpty <;> simp [_parse_price_and_symbol, hc]
  · simp [_parse_price_and_symbol, h]
  · by_cases hc : (priceCandidate text).isEmpty <;> simp [_parse_price_and_symbol, hc, h]

/-- C10 (witness): on `"$abc"` the residue is empty, the value is absent,
yet the symbol was recognized. -/
theorem C10_witness :
    (_parse_price_and_symbol "$abc").1 = none :=
  (C10_prop "$abc").2.1 (by decide)

/-- C5: with responses `[503, 503, 200]` and `max_retries = 2` the fetch
issues exactly 3 requests and returns the third (successful) response;
with `[503, 503, 503]` and `max_retries = 1` it issues exactly 2 requests
and raises `HTTPError(503)`. -/
theorem C5_prop (d1 d2 d3 : PSoup) (u1 u2 u3 : String) :
    AmazonPriceTracker.fetch 2
        [TEvent.resp 503 d1 u1, TEvent.resp 503 d2 u2, TEvent.resp 200 d3 u3]
      = some (FetchResult.ok d3 3)
    ∧ AmazonPriceTracker.fetch 1
        [TEvent.resp 503 d1 u1, TEvent.resp 503 d2 u2, TEvent.resp 503 d3 u3]
      = some (FetchResult.httpError 503 2) := by
  constructor <;> rfl

/-- Helper for C2: a non-transient status >= 400 answered on every attempt
exhausts all `max_retries + 1` attempts before the recorded `HTTPError` is
re-raised. -/
theorem fetchGo_nonRetryable_exhausts (mr status : Nat) (d : PSoup) (u : String)
    (hge : 400 ≤ status) (hnt : transientStatus status = false) :
    ∀ n attempt, attempt + n = mr + 2 → 1 ≤ n →
      AmazonPriceTracker.fetchGo mr attempt (List.replicate n (TEvent.resp status d u))
        = some (FetchResult.httpError status (mr + 1)) := by
  intro n
  induction n with
  | zero => intro attempt _ h1; omega
  | succ k ih =>
      intro attempt h _
      rw [List.replicate_succ]
      have hcond : ¬(transientStatus status = true ∧ attempt ≤ mr) := by
        intro hc
        rw [hnt] at hc
        exact Bool.false_ne_true hc.1
      show (if transientStatus status = true ∧ attempt ≤ mr then
              AmazonPriceTracker.fetchGo mr (attempt + 1) (List.replicate k (TEvent.resp status d u))
            else if 400 ≤ status then
              if mr < attempt then some (FetchResult.httpError status attempt)
              else AmazonPriceTracker.fetchGo mr (attempt + 1) (List.replicate k (TEvent.resp status d u))
            else some (FetchResult.ok d attempt))
          = some (FetchResult.httpError status (mr + 1))
      rw [if_neg hcond, if_pos hge]
      by_cases hlast : mr < attempt
      · rw [if_pos hlast]
        have : attempt = mr + 1 := by omega
        rw [this]
      · rw [if_neg hlast]
        exact ih (attempt + 1) (by omega) (by omega)

/-- C2 (amended): a response whose status is >= 400 and outside
`{429, 500, 502, 503, 504}` raises `HTTPError` inside the `try` block, and
the generic `except requests.RequestException` handler catches it and
retries it exactly like a transport failure.  So such a status answered on
every attempt fails with that `HTTPError` only after all
`max_retries + 1` requests, and when at least one retry remains a
following 200 response makes the fetch succeed with 2 requests. -/
theorem C2_amended (mr status : Nat) (d : PSoup) (u : String)
    (hge : 400 ≤ status) (hnt : transientStatus status = false) :
    AmazonPriceTracker.fetch mr (List.replicate (mr + 1) (TEvent.resp status d u))
      = some (FetchResult.httpError status (mr + 1))
    ∧ (∀ (d2 : PSoup) (u2 : String) (rest : List TEvent), 1 ≤ mr →
        AmazonPriceTracker.fetch mr (TEvent.resp status d u :: TEvent.resp 200 d2 u2 :: rest)
          = some (FetchResult.ok d2 2)) := by
  constructor
  · exact fetchGo_nonRetryable_exhausts mr status d u hge hnt (mr + 1) 1 (by omega) (by omega)
  · intro d2 u2 rest hmr
    have hcond : ¬(transientStatus status = true ∧ 1 ≤ mr) := by
      intro hc
      rw [hnt] at hc
      exact Bool.false_ne_true hc.1
    show (if transientStatus status = true ∧ 1 ≤ mr then
            AmazonPriceTracker.fetchGo mr 2 (TEvent.resp 200 d2 u2 :: rest)
          else if 400 ≤ status then
            if mr < 1 then some (FetchResult.httpError status 1)
            else AmazonPriceTracker.fetchGo mr 2 (TEvent.resp 200 d2 u2 :: rest)
          else some (FetchResult.ok d 1))
        = some (FetchResult.ok d2 2)
    rw [if_neg hcond, if_pos hge, if_neg (by omega : ¬ mr < 1)]
    show (if transientStatus 200 = true ∧ 2 ≤ mr then
            AmazonPriceTracker.fetchGo mr 3 rest
          else if 400 ≤ 200 then
            if mr < 2 then some (FetchResult.httpError 200 2)
            else AmazonPriceTracker.fetchGo mr 3 rest
          else some (FetchResult.ok d2 2))
        = some (FetchResult.ok d2 2)
    rw [if_neg (by intro hc; exact Bool.false_ne_true hc.1), if_neg (by omega : ¬ 400 ≤ 200)]

/-- C2 (witness): concretely, a 404 answered twice with `max_retries = 1`
issues 2 requests and only then fails with `HTTPError(404)`. -/
theorem C2_witness :
    AmazonPriceTracker.fetch 1 (List.replicate 2 (TEvent.resp 404 emptyPSoup "u"))
      = some (FetchResult.httpError 404 2) :=
  (C2_amended 1 404 emptyPSoup "u" (by decide) (by decide)).1

/-- C2 (counterexample): with `max_retries = 1` and responses
`[404, 200]`, the fetch does not fail immediately with `HTTPError(404)`
after one request - it retries and succeeds with 2 requests. -/
theorem C2_counterexample :
    AmazonPriceTracker.fetch 1 [TEvent.resp 404 emptyPSoup "u", TEvent.resp 200 emptyPSoup "v"]
      = some (FetchResult.ok emptyPSoup 2)
    ∧ AmazonPriceTracker.fetch 1 [TEvent.resp 404 emptyPSoup "u", TEvent.resp 200 emptyPSoup "v"]
      ≠ some (FetchResult.httpError 404 1) := by
  constructor
  · rfl
  · intro h
    exact FetchResult.noConfusion (Option.some.inj h)

/-- C9: whenever `get_price` (or `track`) produces a record, its `url`
field is exactly the caller-supplied request URL: `fetch` returns only the
body and headers, never `resp.url`, and `parse` is called with
`base_url=url`, so redirects cannot change the recorded URL. -/
theorem C9_prop (mr : Nat) (events : List TEvent) (url now : String) (info : PriceInfo) :
    (AmazonPriceTracker.get_price mr events url now = some (some info) → info.url = url)
    ∧ (AmazonPriceTracker.track mr events url now = some (some info) → info.url = url) := by
  have hmain : AmazonPriceTracker.get_price mr events url now = some (some info) → info.url = url := by
    intro h
    unfold AmazonPriceTracker.get_price at h
    cases hf : AmazonPriceTracker.fetch mr events with
    | none => rw [hf] at h; exact Option.noConfusion h
    | some r =>
        rw [hf] at h
        cases r with
        | ok doc n =>
            have : AmazonPriceTracker.parse doc url now = info :=
              Option.some.inj (Option.some.inj h)
            rw [← this]
            rfl
        | httpError s n => exact Option.noConfusion (Option.some.inj h)
        | netError n => exact Option.noConfusion (Option.some.inj h)
  exact ⟨hmain, fun h => hmain h⟩

/-- C9 (witness): a fetch whose transport reports a different post-redirect
URL still yields a record whose `url` is the original request URL. -/
theorem C9_witness :
    (AmazonPriceTracker.parse emptyPSoup "orig" "t").url = "orig" :=
  (C9_prop 0 [TEvent.resp 200 emptyPSoup "redirected"] "orig" "t"
      (AmazonPriceTracker.parse emptyPSoup "orig" "t")).1 rfl

/-- Helper: a successful unsigned decimal parse is non-negative. -/
theorem parseUnsignedDec_nonneg {l : List Char} {v : PyFloat}
    (h : parseUnsignedDec l = some v) : 0 ≤ v.m := by
  simp only [parseUnsignedDec] at h
  split at h
  · split at h
    · rw [Option.some.injEq] at h
      rw [← h]
      exact Int.natCast_nonneg _
    · exact Option.noConfusion h
  · split at h
    · exact Option.noConfusion h
    · split at h
      · exact Option.noConfusion h
      · split at h
        · rw [Option.some.injEq] at h
          rw [← h]
          exact Int.natCast_nonneg _
        · exact Option.noConfusion h

/-- Helper: members survive `dropWhile` backwards. -/
theorem mem_of_mem_dropWhile {p : Char → Bool} {l : List Char} {a : Char}
    (h : a ∈ l.dropWhile p) : a ∈ l := by
  induction l with
  | nil => simp at h
  | cons c t ih =>
      rw [List.dropWhile_cons] at h
      by_cases hc : p c = true
      · rw [if_pos hc] at h
        exact List.mem_cons_of_mem c (ih h)
      · rw [if_neg hc] at h
        exact h

/-- Helper: members of the stripped list are members of the original. -/
theorem mem_of_mem_pyStripChars {l : List Char} {a : Char}
    (h : a ∈ pyStripChars l) : a ∈ l := by
  unfold pyStripChars at h
  rw [List.mem_reverse] at h
  have h2 := mem_of_mem_dropWhile h
  rw [List.mem_reverse] at h2
  exact mem_of_mem_dropWhile h2

/-- Helper: a float parsed from a list without a minus sign is
non-negative. -/
theorem pyFloatChars_nonneg {l : List Char} {v : PyFloat}
    (hnd : '-' ∉ l) (h : pyFloatChars l = some v) : 0 ≤ v.m := by
  unfold pyFloatChars at h
  cases ht : pyStripChars l with
  | nil => rw [ht] at h; exact Option.noConfusion h
  | cons c rest =>
      rw [ht] at h
      have h' : (if c = '-' then (parseUnsignedDec rest).map (fun v => PyFloat.mk (-v.m) v.e)
                 else if c = '+' then parseUnsignedDec rest
                 else parseUnsignedDec (c :: rest)) = some v := h
      by_cases h1 : c = '-'
      · exact absurd (mem_of_mem_pyStripChars (a := '-')
          (by rw [ht, ← h1]; exact List.mem_cons_self _ _)) hnd
      · rw [if_neg h1] at h'
        by_cases h2 : c = '+'
        · rw [if_pos h2] at h'
          exact parseUnsignedDec_nonneg h'
        · rw [if_neg h2] at h'
          exact parseUnsignedDec_nonneg h'

/-- Helper: every character of the separator residue is a digit or a
separator. -/
theorem priceCandidate_money {t : String} {c : Char} (h : c ∈ priceCandidate t) :
    isMoneyChar c = true :=
  (List.mem_filter.mp h).2

/-- Helper: the normalized residue never contains a minus sign. -/
theorem normalize_no_neg (t : String) : '-' ∉ normalizeCandidate (priceCandidate t) := by
  intro hmem
  unfold normalizeCandidate at hmem
  split at hmem
  · exact absurd (priceCandidate_money (List.mem_filter.mp hmem).1) (by decide)
  · split at hmem
    · split at hmem
      · rcases List.mem_map.mp hmem with ⟨x, hx, hfx⟩
        by_cases hx2 : (x == ',') = true
        · rw [if_pos hx2] at hfx
          exact absurd hfx (by decide)
        · rw [if_neg hx2] at hfx
          subst hfx
          exact absurd (priceCandidate_money (List.mem_filter.mp hx).1) (by decide)
      · exact absurd (priceCandidate_money (List.mem_filter.mp hmem).1) (by decide)
    · exact absurd (priceCandidate_money hmem) (by decide)

/-- Helper: a value extracted by `_parse_price_and_symbol` is
non-negative (minus signs are removed with all other non-money
characters). -/
theorem parse_price_value_nonneg {t : String} {v : PyFloat}
    (h : (_parse_price_and_symbol t).1 = some v) : 0 ≤ v.m := by
  unfold _parse_price_and_symbol at h
  by_cases hc : (priceCandidate t).isEmpty = true
  · simp [hc] at h
  · simp only [hc, Bool.false_eq_true, if_false] at h
    exact pyFloatChars_nonneg (normalize_no_neg t) h

/-- Helper: `Nat.digitChar` of a digit is a digit character. -/
theorem digitChar_isDigit {n : Nat} (h : n < 10) : isDigitC (Nat.digitChar n) = true := by
  interval_cases n <;> decide

/-- Helper: decimal renderings consist of digit characters. -/
theorem natReprGo_digits :
    ∀ (fuel n : Nat) (c : Char), c ∈ natReprGo fuel n → isDigitC c = true := by
  intro fuel
  induction fuel with
  | zero => intro n c h; simp [natReprGo] at h
  | succ k ih =>
      intro n c h
      rw [natReprGo] at h
      by_cases hn : n < 10
      · rw [if_pos hn, List.mem_singleton] at h
        subst h
        exact digitChar_isDigit hn
      · rw [if_neg hn, List.mem_append] at h
        rcases h with h | h
        · exact ih _ _ h
        · rw [List.mem_singleton] at h
          subst h
          exact digitChar_isDigit (Nat.mod_lt _ (by omega))

/-- Helper: zero-padded fraction renderings consist of digit characters. -/
theorem fmt02_digits {n : Nat} {c : Char} (h : c ∈ fmt02 n) : isDigitC c = true := by
  unfold fmt02 at h
  split at h
  · rw [List.mem_cons] at h
    rcases h with h | h
    · subst h; decide
    · rw [natReprL] at h
      exact natReprGo_digits _ _ _ h
  · rw [natReprL] at h
    exact natReprGo_digits _ _ _ h

/-- Helper: the reconstructed `whole.fraction` string has no minus sign. -/
theorem no_neg_wholeStr (a b : Nat) : '-' ∉ natReprL a ++ '.' :: fmt02 b := by
  intro h
  rw [List.mem_append] at h
  rcases h with h | h
  · rw [natReprL] at h
    exact absurd (natReprGo_digits _ _ _ h) (by decide)
  · rw [List.mem_cons] at h
    rcases h with h | h
    · exact absurd h (by decide)
    · exact absurd (fmt02_digits h) (by decide)

/-- Helper: the whole/fraction price path is non-negative. -/
theorem wholeFracPrice_nonneg {soup : PSoup} {v : PyFloat}
    (h : wholeFracPrice soup = some v) : 0 ≤ v.m := by
  simp only [wholeFracPrice] at h
  split at h
  · split at h
    · exact Option.noConfusion h
    · exact pyFloatChars_nonneg (no_neg_wholeStr _ _) h
  · exact Option.noConfusion h

/-- Helper: the fallback-selector price path is non-negative. -/
theorem selectorPrice_nonneg {soup : PSoup} {v : PyFloat}
    (h : (selectorPrice soup).1 = some v) : 0 ≤ v.m := by
  simp only [selectorPrice] at h
  split at h
  · split at h
    · exact parse_price_value_nonneg h
    · exact Option.noConfusion h
  · exact Option.noConfusion h

/-- Helper: a non-negative `PyFloat` denotes a non-negative rational. -/
theorem PyFloat.toRat_nonneg {v : PyFloat} (h : 0 ≤ v.m) : 0 ≤ v.toRat := by
  unfold PyFloat.toRat
  apply div_nonneg
  · exact_mod_cast h
  · positivity

/-- Helper: one JSON-LD loop iteration either keeps the currency or sets
it to a structured-data `priceCurrency` candidate of that object. -/
theorem ldStep_currency (st : LdState) (obj : Json) :
    (ldStep st obj).currency = st.currency
    ∨ ∃ c ∈ currCandsOfObj obj, (ldStep st obj).currency = some c := by
  cases obj with
  | null => exact Or.inl rfl
  | bool b => exact Or.inl rfl
  | num v => exact Or.inl rfl
  | str s => exact Or.inl rfl
  | arr l => exact Or.inl rfl
  | obj fields =>
      simp only [ldStep, ldCurrUpd, currCandsOfObj]
      by_cases h1 : typesOk ((Json.obj fields).get "@type") = true
      · simp only [h1, if_true]
        generalize offersOf (Json.obj fields) = off
        cases off with
        | obj ofs =>
            simp only [currFromOffers, candsFromOffers]
            generalize (Json.obj ofs).get "priceCurrency" = cvo
            cases cvo with
            | some cv =>
                simp only [currFromCv, candsFromCv]
                by_cases h4 : (cv.truthy && !truthyOS st.currency) = true
                · have h5 : cv.truthy = true ∧ (!truthyOS st.currency) = true := by
                    rw [Bool.and_eq_true] at h4
                    exact h4
                  right
                  refine ⟨pyStr cv, ?_, by rw [if_pos h4]⟩
                  rw [if_pos h5.1]
                  exact List.mem_singleton.mpr rfl
                · left
                  rw [if_neg h4]
            | none =>
                left
                simp [currFromCv]
        | null => left; simp [currFromOffers]
        | bool b => left; simp [currFromOffers]
        | num v => left; simp [currFromOffers]
        | str s => left; simp [currFromOffers]
        | arr l => left; simp [currFromOffers]
      · left
        simp only [h1, Bool.false_eq_true, if_false]

/-- Helper: the object fold either keeps the currency or sets it to some
candidate of the processed objects. -/
theorem foldl_ldStep_currency (objs : List Json) :
    ∀ st : LdState,
      (objs.foldl ldStep st).currency = st.currency
      ∨ ∃ c ∈ (objs.map currCandsOfObj).flatten, (objs.foldl ldStep st).currency = some c := by
  induction objs with
  | nil => intro st; exact Or.inl rfl
  | cons o rest ih =>
      intro st
      rw [List.foldl_cons]
      have hmem : ∀ c, c ∈ currCandsOfObj o ∨ c ∈ (rest.map currCandsOfObj).flatten →
          c ∈ ((o :: rest).map currCandsOfObj).flatten := by
        intro c hc
        rw [List.map_cons, List.flatten_cons, List.mem_append]
        exact hc
      rcases ih (ldStep st o) with h | ⟨c, hc, hv⟩
      · rcases ldStep_currency st o with h2 | ⟨c, hc, hv⟩
        · left; rw [h, h2]
        · right
          exact ⟨c, hmem c (Or.inl hc), by rw [h]; exact hv⟩
      · right
        exact ⟨c, hmem c (Or.inr hc), hv⟩

/-- Helper: the whole JSON-LD scan either leaves the currency at its
initial value or sets it to a structured-data `priceCurrency`
candidate. -/
theorem ldScripts_currency (scripts : List (Option Json)) :
    ∀ st : LdState,
      (ldScripts scripts st).currency = st.currency
      ∨ ∃ c ∈ currCands scripts, (ldScripts scripts st).currency = some c := by
  induction scripts with
  | nil => intro st; exact Or.inl rfl
  | cons s rest ih =>
      intro st
      have hmem : ∀ c, c ∈ ((ldObjsOfScript s).map currCandsOfObj).flatten ∨ c ∈ currCands rest →
          c ∈ currCands (s :: rest) := by
        intro c hc
        show c ∈ (((s :: rest).map fun x => ((ldObjsOfScript x).map currCandsOfObj).flatten)).flatten
        rw [List.map_cons, List.flatten_cons, List.mem_append]
        exact hc
      have hstep : ldScripts (s :: rest) st
          = ldScripts rest ((ldObjsOfScript s).foldl ldStep st) := rfl
      rw [hstep]
      rcases ih ((ldObjsOfScript s).foldl ldStep st) with h | ⟨c, hc, hv⟩
      · rcases foldl_ldStep_currency (ldObjsOfScript s) st with h2 | ⟨c, hc, hv⟩
        · left; rw [h, h2]
        · right
          exact ⟨c, hmem c (Or.inl hc), by rw [h]; exact hv⟩
      · right
        exact ⟨c, hmem c (Or.inr hc), hv⟩

/-- Helper: how the final currency can arise. -/
theorem finalCurrency_cases {st : LdState} {sym : Option String} {c : String}
    (h : finalCurrency st sym = some c) :
    st.currency = some c
    ∨ ∃ sy, sym = some sy ∧ lookupPairs _CURRENCY_SYMBOLS sy = some c := by
  unfold finalCurrency at h
  by_cases h1 : truthyOS st.currency = true
  · rw [if_pos h1] at h
    exact Or.inl h
  · rw [if_neg h1] at h
    cases sym with
    | none => exact Or.inl h
    | some sy =>
        have h' : (if (!(sy == "")) = true then lookupPairs _CURRENCY_SYMBOLS sy
                   else st.currency) = some c := h
        by_cases h2 : (!(sy == "")) = true
        · rw [if_pos h2] at h'
          exact Or.inr ⟨sy, rfl, h'⟩
        · rw [if_neg h2] at h'
          exact Or.inl h'

/-- C4 (amended): the `currency` field is only ever a structured-data
`priceCurrency` value or the symbol table image of the recognized symbol,
as claimed; the `price` field is non-negative whenever structured data
supplied no price (the fallback selector and whole/fraction paths strip
signs), but a structured-data price is converted verbatim and may be
negative. -/
theorem C4_amended (soup : PSoup) (url now : String) :
    (∀ c, (AmazonPriceTracker.parse soup url now).currency = some c →
        c ∈ currCands soup.scripts
        ∨ ∃ sy, (AmazonPriceTracker.parse soup url now).symbol = some sy
            ∧ lookupPairs _CURRENCY_SYMBOLS sy = some c)
    ∧ ((ldScripts soup.scripts (initState soup url)).price = none →
        ∀ v, (AmazonPriceTracker.parse soup url now).price = some v → 0 ≤ v.toRat) := by
  constructor
  · intro c hc
    have hc2 : finalCurrency (ldScripts soup.scripts (initState soup url))
        (priceSymbolPair soup (ldScripts soup.scripts (initState soup url))).2 = some c := hc
    rcases finalCurrency_cases hc2 with h | ⟨sy, hsy, hlook⟩
    · rcases ldScripts_currency soup.scripts (initState soup url) with h2 | ⟨c2, hc2m, hv⟩
      · rw [h2] at h
        exact Option.noConfusion h
      · rw [hv, Option.some.injEq] at h
        subst h
        exact Or.inl hc2m
    · exact Or.inr ⟨sy, hsy, hlook⟩
  · intro hpn v hv
    have hsp : priceSymbolPair soup (ldScripts soup.scripts (initState soup url))
        = selectorPrice soup := by
      unfold priceSymbolPair
      rw [hpn]
      rfl
    have hv2 : (if (selectorPrice soup).1.isNone then wholeFracPrice soup
        else (selectorPrice soup).1) = some v := by
      have heq : (AmazonPriceTracker.parse soup url now).price
          = (if (priceSymbolPair soup (ldScripts soup.scripts (initState soup url))).1.isNone
             then wholeFracPrice soup
             else (priceSymbolPair soup (ldScripts soup.scripts (initState soup url))).1) := rfl
      rw [heq, hsp] at hv
      exact hv
    by_cases hnone : (selectorPrice soup).1.isNone = true
    · rw [if_pos hnone] at hv2
      exact PyFloat.toRat_nonneg (wholeFracPrice_nonneg hv2)
    · rw [if_neg hnone] at hv2
      exact PyFloat.toRat_nonneg (selectorPrice_nonneg hv2)

/-- C4 (witness): the pound-priced selector page yields currency `GBP`,
necessarily from the symbol table or structured data. -/
theorem C4_witness :
    "GBP" ∈ currCands wPSoup.scripts
    ∨ ∃ sy, (AmazonPriceTracker.parse wPSoup "u" "t").symbol = some sy
        ∧ lookupPairs _CURRENCY_SYMBOLS sy = some "GBP" :=
  (C4_amended wPSoup "u" "t").1 "GBP" (by decide)

/-- C4 (counterexample): a structured-data offer price of `"-5"` is
converted verbatim, so the parsed `price` is negative, refuting the
claimed non-negativity invariant. -/
theorem C4_counterexample :
    (AmazonPriceTracker.parse negPSoup "u" "t").price = some (PyFloat.mk (-5) 0)
    ∧ (PyFloat.mk (-5) 0).toRat < 0 :=
  ⟨by decide, by norm_num [PyFloat.toRat]⟩

/-- C6: a string `name` in any structured-data object is applied as a
final override of the title: whatever the heuristic title signals
(`#productTitle`, `og:title`) contain, the resolved title is the
structured-data name. -/
theorem C6_prop (ptt : Option String) (ogt ai da : Option (Option String))
    (sels : List (Option PElem)) (wt ft a1 a2 a3 : Option String)
    (url now : String) (kvs : List (String × Json)) (nm : String)
    (hnm : lookupKey kvs "name" = some (Json.str nm))
    (hcl : cleanText (some nm) = some nm) :
    (AmazonPriceTracker.parse
        { productTitleText := ptt, ogTitle := ogt, asinInput := ai, dataAsin := da,
          scripts := [some (Json.obj kvs)], priceSels := sels,
          wholeText := wt, fracText := ft, avail1 := a1, avail2 := a2, avail3 := a3 }
        url now).title = some nm := by
  have h1 : (AmazonPriceTracker.parse
      { productTitleText := ptt, ogTitle := ogt, asinInput := ai, dataAsin := da,
        scripts := [some (Json.obj kvs)], priceSels := sels,
        wholeText := wt, fracText := ft, avail1 := a1, avail2 := a2, avail3 := a3 }
      url now).title
      = ldTitleUpd
          (initState
            { productTitleText := ptt, ogTitle := ogt, asinInput := ai, dataAsin := da,
              scripts := [some (Json.obj kvs)], priceSels := sels,
              wholeText := wt, fracText := ft, avail1 := a1, avail2 := a2, avail3 := a3 }
            url)
          (Json.obj kvs) := rfl
  rw [h1]
  unfold ldTitleUpd
  show (match (Json.obj kvs).get "name" with
        | some (Json.str nm) => cleanText (some nm)
        | _ => _) = some nm
  have h2 : (Json.obj kvs).get "name" = some (Json.str nm) := hnm
  rw [h2]
  exact hcl

/-- C7: in a document whose single JSON-LD block is an object of type
article / newsarticle / blogposting with a non-empty (normalized)
headline, the resolved title is that headline, whatever every meta tag of
the document (in particular `og:title` and `twitter:title`) contains. -/
theorem C7_prop (ujoin : String → String → String) (doc : NSoup) (base_url : String)
    (kvs : List (String × Json)) (tname h : String)
    (hscr : doc.scripts = [some (Json.obj kvs)])
    (hg : lookupKey kvs "@graph" = none)
    (ht : lookupKey kvs "@type" = some (Json.str tname))
    (htm : String.mk (lowerL tname.data) = "article"
        ∨ String.mk (lowerL tname.data) = "newsarticle"
        ∨ String.mk (lowerL tname.data) = "blogposting")
    (hh : lookupKey kvs "headline" = some (Json.str h))
    (hne : h ≠ "") (hstrip : pyStrip h = h) (hcl : cleanText (some h) = some h) :
    (NewsScraper.parse ujoin doc base_url).title = some h := by
  have hres : (NewsScraper.parse ujoin doc base_url).title = resolveTitle doc := rfl
  rw [hres]
  have hobjs : (doc.scripts.map iterObjsOfScript).flatten = [Json.obj kvs] := by
    rw [hscr]
    simp only [List.map_cons, List.map_nil, List.flatten_cons, List.flatten_nil, List.append_nil]
    show graphOrSelf kvs = [Json.obj kvs]
    unfold graphOrSelf
    rw [hg]
  have hne' : tname ≠ "" := by
    intro he
    subst he
    rcases htm with hx | hx | hx <;> exact absurd hx (by decide)
  have htr : (Json.str tname).truthy = true := by
    simp [Json.truthy, hne']
  have hany : (typeNames (Json.str tname)).any isArticleTypeName = true := by
    simp only [typeNames, pyStr]
    rcases htm with hx | hx | hx <;> simp [isArticleTypeName, hx]
  have hpick : articleObjOf doc = some (Json.obj kvs) := by
    unfold articleObjOf
    rw [hobjs]
    simp [pickArticleObj, Json.get, ht, htr, hany]
  have hhtr : (Json.str h).truthy = true := by
    simp [Json.truthy, hne]
  have hld : titleLdPart doc = some h := by
    unfold titleLdPart
    rw [hpick]
    show titleLdOf (Json.obj kvs) = some h
    simp [titleLdOf, pyOrJ, jStrOpt, Json.get, hh, hhtr]
  unfold resolveTitle
  rw [hld]
  have hbeq : (h == "") = false := by
    simp [hne]
  simp only [firstNE, hbeq, Bool.false_eq_true, if_false, hstrip]
  exact hcl

/-- C7 (witness): the concrete conflicting page resolves to the
structured-data headline, not the meta titles. -/
theorem C7_witness :
    (NewsScraper.parse (fun _ u => u) c7doc "u").title = some "Real Headline" :=
  C7_prop (fun _ u => u) c7doc "u"
    [("@type", Json.str "NewsArticle"), ("headline", Json.str "Real Headline")]
    "NewsArticle" "Real Headline" rfl rfl rfl (Or.inr (Or.inl (by decide)))
    rfl (by decide) (by decide) (by decide)

/-- Helper: the collapse pass only emits spaces as whitespace. -/
theorem collapse_ws_space : ∀ (prev : Bool) (l : List Char) (c : Char),
    c ∈ collapseWs prev l → pyWs c = true → c = ' ' := by
  intro prev l
  induction l generalizing prev with
  | nil => intro c hc _; simp [collapseWs] at hc
  | cons a t ih =>
      intro c hc hw
      rw [collapseWs] at hc
      by_cases ha : pyWs a = true
      · rw [if_pos ha] at hc
        by_cases hp : prev = true
        · rw [if_pos hp] at hc
          exact ih true c hc hw
        · rw [if_neg hp] at hc
          rcases List.mem_cons.mp hc with h | h
          · exact h
          · exact ih true c h hw
      · rw [if_neg ha] at hc
        rcases List.mem_cons.mp hc with h | h
        · subst h; exact absurd hw ha
        · exact ih false c h hw

/-- Helper: in the in-run state the next emitted character is not
whitespace. -/
theorem collapse_head_true : ∀ (l : List Char) (c : Char),
    (collapseWs true l).head? = some c → pyWs c = false := by
  intro l
  induction l with
  | nil => intro c h; simp [collapseWs] at h
  | cons a t ih =>
      intro c h
      rw [collapseWs] at h
      by_cases ha : pyWs a = true
      · rw [if_pos ha, if_pos rfl] at h
        exact ih c h
      · rw [if_neg ha] at h
        rw [List.head?_cons, Option.some.injEq] at h
        subst h
        exact Bool.eq_false_iff.mpr ha

/-- Helper: the collapse pass never emits two adjacent whitespace
characters. -/
theorem collapse_chain : ∀ (prev : Bool) (l : List Char),
    noAdjWs (collapseWs prev l) := by
  intro prev l
  induction l generalizing prev with
  | nil => simp [collapseWs, noAdjWs]
  | cons a t ih =>
      rw [collapseWs]
      by_cases ha : pyWs a = true
      · rw [if_pos ha]
        by_cases hp : prev = true
        · rw [if_pos hp]; exact ih true
        · rw [if_neg hp]
          unfold noAdjWs
          rw [List.chain'_cons']
          refine ⟨?_, ih true⟩
          intro b hb hcontra
          have hbf := collapse_head_true t b (Option.mem_def.mp hb)
          rw [hbf] at hcontra
          exact Bool.false_ne_true hcontra.2
      · rw [if_neg ha]
        unfold noAdjWs
        rw [List.chain'_cons']
        refine ⟨?_, ih false⟩
        intro b _ hcontra
        exact ha hcontra.1

/-- Helper: the head surviving `dropWhile` fails the predicate. -/
theorem head?_dropWhile {p : Char → Bool} : ∀ (l : List Char) (c : Char),
    (l.dropWhile p).head? = some c → p c = false := by
  intro l
  induction l with
  | nil => intro c h; simp [List.dropWhile] at h
  | cons a t ih =>
      intro c h
      rw [List.dropWhile_cons] at h
      by_cases ha : p a = true
      · rw [if_pos ha] at h; exact ih c h
      · rw [if_neg ha] at h
        rw [List.head?_cons, Option.some.injEq] at h
        subst h
        exact Bool.eq_false_iff.mpr ha

/-- Helper: `dropWhile` keeps the last element of a list it does not
empty. -/
theorem getLast?_dropWhile {p : Char → Bool} : ∀ (l : List Char),
    l.dropWhile p ≠ [] → (l.dropWhile p).getLast? = l.getLast? := by
  intro l
  induction l with
  | nil => intro h; simp [List.dropWhile] at h
  | cons a t ih =>
      intro h
      rw [List.dropWhile_cons] at h ⊢
      by_cases ha : p a = true
      · rw [if_pos ha] at h ⊢
        rw [ih h]
        have ht : t ≠ [] := by
          intro he; rw [he] at h; simp [List.dropWhile] at h
        cases t with
        | nil => exact absurd rfl ht
        | cons b u => rw [List.getLast?_cons_cons]
      · rw [if_neg ha]

/-- Helper: `dropWhile` preserves chains. -/
theorem chain'_dropWhile {R : Char → Char → Prop} {p : Char → Bool} :
    ∀ {l : List Char}, List.Chain' R l → List.Chain' R (l.dropWhile p) := by
  intro l
  induction l with
  | nil => intro h; exact h
  | cons a t ih =>
      intro h
      rw [List.dropWhile_cons]
      by_cases ha : p a = true
      · rw [if_pos ha]
        exact ih h.tail
      · rw [if_neg ha]
        exact h

/-- Helper: adjacency freedom is symmetric under reversal. -/
theorem noAdjWs_reverse {l : List Char} (h : noAdjWs l) : noAdjWs l.reverse := by
  unfold noAdjWs at h ⊢
  rw [List.chain'_reverse]
  exact List.Chain'.imp (fun a b hr hc => hr ⟨hc.2, hc.1⟩) h

/-- Helper: the head of a stripped list is not whitespace. -/
theorem pyStripChars_head {l : List Char} {c : Char}
    (h : (pyStripChars l).head? = some c) : pyWs c = false := by
  unfold pyStripChars at h
  rw [List.head?_reverse] at h
  have hne : (l.dropWhile pyWs).reverse.dropWhile pyWs ≠ [] := by
    intro he; rw [he] at h; exact Option.noConfusion h
  rw [getLast?_dropWhile _ hne, List.getLast?_reverse] at h
  exact head?_dropWhile l c h

/-- Helper: the last character of a stripped list is not whitespace. -/
theorem pyStripChars_last {l : List Char} {c : Char}
    (h : (pyStripChars l).getLast? = some c) : pyWs c = false := by
  unfold pyStripChars at h
  rw [List.getLast?_reverse] at h
  exact head?_dropWhile _ c h

/-- Helper: stripping preserves adjacency freedom. -/
theorem pyStripChars_chain {l : List Char} (h : noAdjWs l) : noAdjWs (pyStripChars l) := by
  unfold pyStripChars
  exact noAdjWs_reverse (chain'_dropWhile (noAdjWs_reverse (chain'_dropWhile h)))

/-- Helper: a non-empty cleaned character list is a well-formed chunk. -/
theorem cleanChars_chunkOk {l : List Char} (hne : cleanChars l ≠ []) : chunkOk (cleanChars l) := by
  refine ⟨hne, ?_, ?_, ?_, ?_⟩
  · intro c hc hw
    exact collapse_ws_space false l c (mem_of_mem_pyStripChars hc) hw
  · exact pyStripChars_chain (collapse_chain false l)
  · intro c hc; exact pyStripChars_head hc
  · intro c hc; exact pyStripChars_last hc

/-- Helper: every string produced by `_clean_text` is a well-formed
chunk. -/
theorem cleanText_chunkOk {s t : String}
    (h : cleanText (some s) = some t) : chunkOk t.data := by
  have h0 : (if s = "" then none
             else match cleanChars s.data with
                  | [] => none
                  | r => some (String.mk r)) = some t := h
  by_cases hs : s = ""
  · rw [if_pos hs] at h0; exact Option.noConfusion h0
  · rw [if_neg hs] at h0
    cases hcc : cleanChars s.data with
    | nil => rw [hcc] at h0; exact Option.noConfusion h0
    | cons c r =>
        rw [hcc] at h0
        have h' : some (String.mk (c :: r)) = some t := h0
        rw [Option.some.injEq] at h'
        subst h'
        show chunkOk (String.mk (c :: r)).data
        have hdata : (String.mk (c :: r)).data = c :: r := rfl
        rw [hdata, ← hcc]
        exact cleanChars_chunkOk (by rw [hcc]; intro hx; exact List.noConfusion hx)

/-- Helper: the collapse state after a chunk is the whitespace class of
its last character. -/
theorem lastWsState_getLast? : ∀ (q : List Char) (prev : Bool) (c : Char),
    q.getLast? = some c → lastWsState q prev = pyWs c := by
  intro q
  induction q with
  | nil => intro prev c h; exact Option.noConfusion h
  | cons a t ih =>
      intro prev c h
      cases t with
      | nil =>
          have h2 : some a = some c := h
          have h3 : a = c := Option.some.inj h2
          subst h3
          rfl
      | cons b u =>
          rw [List.getLast?_cons_cons] at h
          exact ih (pyWs a) c h

/-- Helper: collapsing leaves a well-formed chunk prefix untouched and
continues on the remainder with the chunk's final run state. -/
theorem collapse_append : ∀ (q : List Char) (prev : Bool) (rest : List Char),
    (∀ c ∈ q, pyWs c = true → c = ' ') → noAdjWs q →
    (prev = true → ∀ c, q.head? = some c → pyWs c = false) →
    collapseWs prev (q ++ rest) = q ++ collapseWs (lastWsState q prev) rest := by
  intro q
  induction q with
  | nil => intro prev rest _ _ _; rfl
  | cons a t ih =>
      intro prev rest hws hch hhd
      rw [List.cons_append, collapseWs]
      by_cases ha : pyWs a = true
      · have ha' : a = ' ' := hws a (List.mem_cons_self a t) ha
        subst ha'
        have hp : prev = false := by
          by_cases hpv : prev = true
          · have hcontra := hhd hpv ' ' (by rw [List.head?_cons])
            rw [hcontra] at ha
            exact absurd ha Bool.false_ne_true
          · exact Bool.eq_false_iff.mpr hpv
        subst hp
        rw [if_pos ha, if_neg Bool.false_ne_true]
        have hht : ∀ c, t.head? = some c → pyWs c = false := by
          intro c hc
          have hrel := (List.chain'_cons'.mp hch).1 c (Option.mem_def.mpr hc)
          by_cases hpc : pyWs c = true
          · exact absurd ⟨ha, hpc⟩ hrel
          · exact Bool.eq_false_iff.mpr hpc
        rw [ih true rest (fun c hc => hws c (List.mem_cons_of_mem _ hc)) hch.tail (fun _ => hht)]
        rfl
      · rw [if_neg ha]
        rw [ih false rest (fun c hc => hws c (List.mem_cons_of_mem _ hc)) hch.tail
            (fun hf => absurd hf Bool.false_ne_true)]
        have hstate : lastWsState (a :: t) prev = lastWsState t false := by
          show lastWsState t (pyWs a) = lastWsState t false
          rw [Bool.eq_false_iff.mpr ha]
        rw [hstate]
        rfl

/-- Helper: a non-empty list has a last element. -/
theorem getLast?_ne_none {l : List Char} (h : l ≠ []) : l.getLast? ≠ none := by
  rw [← List.head?_reverse]
  cases hr : l.reverse with
  | nil => exact absurd (List.reverse_eq_nil_iff.mp hr) h
  | cons c t => simp

/-- Helper: out of a whitespace run, the collapse state is irrelevant. -/
theorem collapseWs_true_eq_false {l : List Char}
    (h : ∀ c, l.head? = some c → pyWs c = false) :
    collapseWs true l = collapseWs false l := by
  cases l with
  | nil => rfl
  | cons c t =>
      have hc := h c (by rw [List.head?_cons])
      rw [collapseWs, collapseWs, if_neg (by rw [hc]; exact Bool.false_ne_true),
          if_neg (by rw [hc]; exact Bool.false_ne_true)]

/-- Helper: a join starts with its first part's head. -/
theorem head?_joinWithL (sep : List Char) (y : List Char) (rest : List (List Char))
    (hy : y ≠ []) : (joinWithL sep (y :: rest)).head? = y.head? := by
  cases rest with
  | nil => rfl
  | cons z r2 =>
      cases y with
      | nil => exact absurd rfl hy
      | cons c t => rfl

/-- Helper: a join of a non-empty first part is non-empty. -/
theorem joinWithL_ne_nil (sep : List Char) (y : List Char) (rest : List (List Char))
    (hy : y ≠ []) : joinWithL sep (y :: rest) ≠ [] := by
  intro h
  have hh := head?_joinWithL sep y rest hy
  rw [h] at hh
  cases y with
  | nil => exact hy rfl
  | cons c t => exact Option.noConfusion hh

/-- Helper: appending on the left keeps the last element. -/
theorem getLast?_append_right : ∀ (a b : List Char), b ≠ [] → (a ++ b).getLast? = b.getLast? := by
  intro a
  induction a with
  | nil => intro b _; rfl
  | cons c t ih =>
      intro b hb
      rw [List.cons_append]
      have hne : t ++ b ≠ [] := by
        intro he
        rcases List.append_eq_nil.mp he with ⟨_, h2⟩
        exact hb h2
      cases htb : t ++ b with
      | nil => exact absurd htb hne
      | cons d u =>
          rw [List.getLast?_cons_cons, ← htb]
          exact ih b hb

/-- Helper: a space-join of chunks starts with a non-whitespace
character. -/
theorem joinWithL_head (ps : List (List Char)) (hok : ∀ p ∈ ps, chunkOk p) :
    ∀ c, (joinWithL [' '] ps).head? = some c → pyWs c = false := by
  cases ps with
  | nil => intro c h; exact Option.noConfusion h
  | cons y rest =>
      intro c h
      rw [head?_joinWithL [' '] y rest (hok y (List.mem_cons_self y rest)).1] at h
      exact (hok y (List.mem_cons_self y rest)).2.2.2.1 c h

/-- Helper: a space-join of chunks ends with a non-whitespace
character. -/
theorem joinWithL_last : ∀ (ps : List (List Char)), (∀ p ∈ ps, chunkOk p) →
    ∀ c, (joinWithL [' '] ps).getLast? = some c → pyWs c = false := by
  intro ps
  induction ps with
  | nil => intro _ c h; exact Option.noConfusion h
  | cons y rest ih =>
      intro hok c h
      cases rest with
      | nil => exact (hok y (List.mem_cons_self y [])).2.2.2.2 c h
      | cons z r2 =>
          have hz := hok z (List.mem_cons_of_mem _ (List.mem_cons_self z r2))
          have hJne : joinWithL [' '] (z :: r2) ≠ [] := joinWithL_ne_nil [' '] z r2 hz.1
          rw [show joinWithL [' '] (y :: z :: r2)
              = y ++ ([' '] ++ joinWithL [' '] (z :: r2)) from by
                rw [joinWithL, List.append_assoc]] at h
          rw [getLast?_append_right y _ (by intro he; exact List.noConfusion he)] at h
          rw [show ([' '] : List Char) ++ joinWithL [' '] (z :: r2)
              = ' ' :: joinWithL [' '] (z :: r2) from rfl] at h
          cases hJ : joinWithL [' '] (z :: r2) with
          | nil => exact absurd hJ hJne
          | cons d u =>
              rw [hJ, List.getLast?_cons_cons, ← hJ] at h
              exact ih (fun p hp => hok p (List.mem_cons_of_mem _ hp)) c h

/-- Helper: collapsing a blank-line join of cleaned chunks gives exactly
the space join. -/
theorem collapse_join : ∀ (ps : List (List Char)), (∀ p ∈ ps, chunkOk p) → ps ≠ [] →
    collapseWs false (joinWithL ['\n', '\n'] ps) = joinWithL [' '] ps := by
  intro ps
  induction ps with
  | nil => intro _ h; exact absurd rfl h
  | cons x rest ih =>
      intro hok _
      have hx := hok x (List.mem_cons_self x rest)
      cases rest with
      | nil =>
          have h1 := collapse_append x false [] hx.2.1 hx.2.2.1
            (fun hf => absurd hf Bool.false_ne_true)
          rw [List.append_nil] at h1
          rw [show collapseWs (lastWsState x false) [] = [] from rfl, List.append_nil] at h1
          exact h1
      | cons y r2 =>
          have hy := hok y (List.mem_cons_of_mem _ (List.mem_cons_self y r2))
          have hxlast : lastWsState x false = false := by
            cases hgl : x.getLast? with
            | none => exact absurd hgl (getLast?_ne_none hx.1)
            | some c =>
                rw [lastWsState_getLast? x false c hgl]
                exact hx.2.2.2.2 c hgl
          rw [show joinWithL ['\n', '\n'] (x :: y :: r2)
              = x ++ ('\n' :: '\n' :: joinWithL ['\n', '\n'] (y :: r2)) from by
                rw [joinWithL, List.append_assoc]
                rfl]
          rw [collapse_append x false _ hx.2.1 hx.2.2.1 (fun hf => absurd hf Bool.false_ne_true)]
          rw [hxlast]
          rw [show collapseWs false ('\n' :: '\n' :: joinWithL ['\n', '\n'] (y :: r2))
              = ' ' :: collapseWs true (joinWithL ['\n', '\n'] (y :: r2)) from rfl]
          have hhead : ∀ c, (joinWithL ['\n', '\n'] (y :: r2)).head? = some c → pyWs c = false := by
            intro c hc
            rw [head?_joinWithL _ y r2 hy.1] at hc
            exact hy.2.2.2.1 c hc
          rw [collapseWs_true_eq_false hhead]
          rw [ih (fun p hp => hok p (List.mem_cons_of_mem _ hp))
              (by intro he; exact List.noConfusion he)]
          rw [show joinWithL [' '] (x :: y :: r2)
              = x ++ (' ' :: joinWithL [' '] (y :: r2)) from by
                rw [joinWithL, List.append_assoc]
                rfl]

/-- Helper: stripping is the identity on a list with non-whitespace
ends. -/
theorem pyStripChars_eq_self {l : List Char}
    (hhead : ∀ c, l.head? = some c → pyWs c = false)
    (hlast : ∀ c, l.getLast? = some c → pyWs c = false) :
    pyStripChars l = l := by
  unfold pyStripChars
  have h1 : l.dropWhile pyWs = l := by
    cases l with
    | nil => rfl
    | cons c t =>
        rw [List.dropWhile_cons,
            if_neg (by rw [hhead c (by rw [List.head?_cons])]; exact Bool.false_ne_true)]
  rw [h1]
  have h2 : l.reverse.dropWhile pyWs = l.reverse := by
    cases hr : l.reverse with
    | nil => rfl
    | cons c t =>
        have hcl : l.getLast? = some c := by
          rw [← List.head?_reverse, hr, List.head?_cons]
        rw [List.dropWhile_cons,
            if_neg (by rw [hlast c hcl]; exact Bool.false_ne_true)]
  rw [h2, List.reverse_reverse]

/-- Helper: cleaning a blank-line join of cleaned chunks yields the space
join. -/
theorem cleanChars_join (ps : List (List Char)) (hok : ∀ p ∈ ps, chunkOk p) (hne : ps ≠ []) :
    cleanChars (joinWithL ['\n', '\n'] ps) = joinWithL [' '] ps := by
  unfold cleanChars
  rw [collapse_join ps hok hne]
  exact pyStripChars_eq_self (joinWithL_head ps hok) (joinWithL_last ps hok)

/-- Helper: `_clean_text` of the blank-line join of cleaned paragraphs is
the space join. -/
theorem cleanText_join (ps : List String) (hok : ∀ p ∈ ps, chunkOk p.data) (hne : ps ≠ []) :
    cleanText (some (joinWith "\n\n" ps)) = some (joinWith " " ps) := by
  have hok' : ∀ q ∈ ps.map String.data, chunkOk q := by
    intro q hq
    rcases List.mem_map.mp hq with ⟨p, hp, hpq⟩
    rw [← hpq]
    exact hok p hp
  have hmapne : ps.map String.data ≠ [] := by
    intro hnil
    exact hne (List.map_eq_nil_iff.mp hnil)
  have hnejl : joinWithL ['\n', '\n'] (ps.map String.data) ≠ [] := by
    cases ps with
    | nil => exact absurd rfl hne
    | cons p rest =>
        exact joinWithL_ne_nil _ _ _ (hok p (List.mem_cons_self p rest)).1
  have hnesp : joinWithL [' '] (ps.map String.data) ≠ [] := by
    cases ps with
    | nil => exact absurd rfl hne
    | cons p rest =>
        exact joinWithL_ne_nil _ _ _ (hok p (List.mem_cons_self p rest)).1
  have hje := cleanChars_join (ps.map String.data) hok' hmapne
  show (if joinWith "\n\n" ps = "" then none
        else match cleanChars (joinWith "\n\n" ps).data with
             | [] => none
             | r => some (String.mk r)) = some (joinWith " " ps)
  have hd : (joinWith "\n\n" ps).data = joinWithL ['\n', '\n'] (ps.map String.data) := rfl
  rw [if_neg (by
    intro he
    apply hnejl
    have h2 := congrArg String.data he
    rw [hd] at h2
    exact h2)]
  rw [hd, hje]
  cases hcase : joinWithL [' '] (ps.map String.data) with
  | nil => exact absurd hcase hnesp
  | cons c r =>
      show some (String.mk (c :: r)) = some (joinWith " " ps)
      rw [show joinWith " " ps = String.mk (joinWithL [' '] (ps.map String.data)) from rfl, hcase]

/-- Helper: every collected paragraph is a `_clean_text` output. -/
theorem collectGo_mem : ∀ (nodes : List PNode) (acc : List String) (x : String),
    x ∈ collectGo nodes acc → x ∈ acc ∨ ∃ raw, cleanText (some raw) = some x := by
  intro nodes
  induction nodes with
  | nil => intro acc x h; exact Or.inl h
  | cons n rest ih =>
      intro acc x h
      have hsplit : x ∈ acc ++ collectNodeParas n
          → x ∈ acc ∨ ∃ raw, cleanText (some raw) = some x := by
        intro hm
        rcases List.mem_append.mp hm with hm | hm
        · exact Or.inl hm
        · rcases List.mem_filterMap.mp hm with ⟨raw, _, hraw⟩
          exact Or.inr ⟨raw, hraw⟩
      simp only [collectGo] at h
      split at h
      · exact hsplit h
      · rcases ih _ _ h with h2 | h2
        · exact hsplit h2
        · exact Or.inr h2

/-- Helper: collected paragraphs are well-formed chunks. -/
theorem collectParas_chunkOk (doc : NSoup) : ∀ x ∈ collectParas doc, chunkOk x.data := by
  intro x hx
  rcases collectGo_mem (nodesToScan doc) [] x hx with h | ⟨raw, hraw⟩
  · simp at h
  · exact cleanText_chunkOk hraw

/-- C3 (amended): the `content` field is the collected cleaned paragraph
texts joined with a single space: the blank-line (`"\n\n"`) join is only
an intermediate value, and the final `_clean_text` pass collapses each
blank-line separator into one space. -/
theorem C3_amended (ujoin : String → String → String) (doc : NSoup) (base_url : String) :
    (NewsScraper.parse ujoin doc base_url).content
      = (if (collectParas doc).isEmpty then none
         else some (joinWith " " (collectParas doc))) := by
  have hc : (NewsScraper.parse ujoin doc base_url).content
      = cleanText (contentTextOf doc) := rfl
  rw [hc]
  unfold contentTextOf
  by_cases he : (collectParas doc).isEmpty = true
  · rw [if_pos he, if_pos he]
    rfl
  · rw [if_neg he, if_neg he]
    exact cleanText_join (collectParas doc) (collectParas_chunkOk doc)
      (by intro hnil; exact he (by rw [hnil]; rfl))

/-- C3 (counterexample): on a page with the two paragraphs `A.` and `B.`,
the content is `"A. B."`, not the claimed blank-line join `"A.\n\nB."`. -/
theorem C3_counterexample :
    (NewsScraper.parse (fun _ u => u) para2NSoup "u").content = some "A. B."
    ∧ (NewsScraper.parse (fun _ u => u) para2NSoup "u").content
        ≠ some (joinWith "\n\n" (collectParas para2NSoup)) :=
  ⟨by decide, by decide⟩

/-- C6 (witness): a concrete page where the heuristic `#productTitle` was
already found and a JSON-LD `name` overrides it. -/
theorem C6_witness :
    (AmazonPriceTracker.parse
        { productTitleText := some "Heuristic Title", ogTitle := none, asinInput := none,
          dataAsin := none, scripts := [some (Json.obj [("name", Json.str "LD Name")])],
          priceSels := [none, none, none, none, none], wholeText := none, fracText := none,
          avail1 := none, avail2 := none, avail3 := none }
        "u" "t").title = some "LD Name" :=
  C6_prop (some "Heuristic Title") none none none [none, none, none, none, none]
    none none none none none "u" "t" [("name", Json.str "LD Name")] "LD Name" rfl (by decide)

end PyUtil
